import Mathlib

/-!
Verification of the calendar widget logic in `themes/daily/assets/js/main.js`.

The JavaScript source is shallowly embedded:
* JS strings are Lean `String`s (the values involved are ASCII, so UTF-16
  code-unit comparison coincides with `Char` comparison on `String.data`);
* JS numbers that the code produces and consumes at the places under study are
  integers, modelled as `Int` (JSON numbers are modelled as `ℚ` so that the
  `Number.isInteger` guards in the source are meaningful);
* a JS `Date` is modelled by its day number (days since 1970-01-01) together
  with conversion functions between day numbers and proleptic-Gregorian civil
  dates, mirroring what the ECMAScript `Date` engine computes, including the
  rule that a constructor year argument in `0..99` is interpreted as
  `1900 + year`;
* `Map` objects are modelled as insertion-ordered association lists;
* `NaN` results of `Number(...)` are modelled as `none : Option ℚ`.
-/

namespace Daily

/-! ### Models of JS string/number primitives -/

/-- Decimal digits of a natural number, most significant first, as produced by
the JS `String(value)` conversion.  The first argument is recursion fuel;
`natRepr` supplies enough. -/
def natReprAux : Nat → Nat → List Char
  | 0, _ => []
  | fuel + 1, v =>
    if v < 10 then [Nat.digitChar v]
    else natReprAux fuel (v / 10) ++ [Nat.digitChar (v % 10)]

/-- Model of the JS `String(v)` conversion for a natural number. -/
def natRepr (v : Nat) : List Char := natReprAux (v + 1) v

/-- Model of the JS `String(v)` conversion for an integer. -/
def intRepr (v : Int) : List Char :=
  if v < 0 then '-' :: natRepr v.natAbs else natRepr v.toNat

/-- Model of JS `s.padStart(len, c)`. -/
def padStartChars (s : List Char) (len : Nat) (c : Char) : List Char :=
  List.replicate (len - s.length) c ++ s

/-- Source `pad`: `String(value).padStart(length, "0")` (character list). -/
def pad (v : Int) (len : Nat) : List Char :=
  padStartChars (intRepr v) len '0'

/-- Source `pad` packaged as a `String`. -/
def padStr (v : Int) (len : Nat) : String := ⟨pad v len⟩

/-- Numeric value of a list of decimal digit characters. -/
def charsVal (cs : List Char) : Nat :=
  cs.foldl (fun acc c => 10 * acc + (c.toNat - 48)) 0

/-- Model of the JS `Number(str)` conversion, restricted to the string shapes
that occur here: the empty string converts to `0`, a string of decimal digits
to its value, and everything else to `NaN` (`none`).  (The full JS numeric
grammar also accepts signs, decimals and exponents; those shapes never reach
the conversions under study.) -/
def strToNumber (cs : List Char) : Option ℚ :=
  if cs.isEmpty then some 0
  else if cs.all (·.isDigit) then some ((charsVal cs : ℚ))
  else none

/-- Model of JS `str.split(sep)` (accumulator is the current chunk, reversed). -/
def splitOnAux (sep : Char) : List Char → List Char → List (List Char)
  | [], acc => [acc.reverse]
  | c :: rest, acc =>
    if c = sep then acc.reverse :: splitOnAux sep rest []
    else splitOnAux sep rest (c :: acc)

/-- Model of JS `str.split(sep)`. -/
def splitOn (sep : Char) (cs : List Char) : List (List Char) :=
  splitOnAux sep cs []

/-- Canonical fixed-width decimal digit list (most significant first) of
`v < 10 ^ n`; the reference form against which `pad` is proved. -/
def padDigits (v : Nat) : Nat → List Nat
  | 0 => []
  | n + 1 => v / 10 ^ n :: padDigits (v % 10 ^ n) n

/-! ### Date/key utilities from the source (`main.js`, lines 1-28) -/

/-- Source `toMonthKey`: the zero-padded `YYYY-MM` month key. -/
def toMonthKey (year month : Int) : String :=
  padStr year 4 ++ "-" ++ padStr month 2

/-- Result type of `parseMonthKey`; the fields model the JS numbers produced
by `Number(...)`, with `none` for `NaN`. -/
structure ParsedMonthKey where
  year : Option ℚ
  month : Option ℚ
deriving DecidableEq

/-- JS `Number` applied to an optional split part (`Number(undefined)` is
`NaN`). -/
def jsNumberOfPart : Option (List Char) → Option ℚ
  | none => none
  | some cs => strToNumber cs

/-- Source `parseMonthKey`: split the key on `-` and coerce the first two
parts with `Number`. -/
def parseMonthKey (key : String) : ParsedMonthKey :=
  { year := jsNumberOfPart ((splitOn '-' key.data).get? 0)
    month := jsNumberOfPart ((splitOn '-' key.data).get? 1) }

/-- Code-unit (lexicographic) strict comparison of character lists, the order
underlying JS string comparison. -/
def charListLt : List Char → List Char → Bool
  | [], [] => false
  | [], _ :: _ => true
  | _ :: _, [] => false
  | a :: as, b :: bs =>
    if a < b then true else if b < a then false else charListLt as bs

/-- Non-strict code-unit comparison. -/
def charListLe (xs ys : List Char) : Bool := !charListLt ys xs

/-- Source `compareMonthKey`: `a.localeCompare(b)`.  For the digit/hyphen
strings compared here, locale collation agrees in sign with code-unit
comparison, which is what this model returns. -/
def compareMonthKey (a b : String) : Int :=
  if charListLt a.data b.data then -1
  else if charListLt b.data a.data then 1
  else 0

/-- Second half of `clampMonthKey` (the `maxKey` guard and the fall-through
`return key`). -/
def clampMax (key : String) (maxKey : Option String) : String :=
  match maxKey with
  | some mx => if mx ≠ "" ∧ compareMonthKey key mx > 0 then mx else key
  | none => key

/-- Source `clampMonthKey`.  A bound is "set" (JS truthy) when it is present
and non-empty. -/
def clampMonthKey (key : String) (minKey maxKey : Option String) : String :=
  match minKey with
  | some mn =>
    if mn ≠ "" ∧ compareMonthKey key mn < 0 then mn else clampMax key maxKey
  | none => clampMax key maxKey

/-- The ECMAScript two-digit-year rule used by the `Date` constructor: a year
argument in `0..99` denotes `1900 + year`. -/
def jsFixYear (y : Int) : Int := if 0 ≤ y ∧ y ≤ 99 then y + 1900 else y

/-- Source `addMonths`.  The source builds `new Date(year, month - 1, 1)` and
calls `setMonth(getMonth() + offset)`; since the day of month is `1`
throughout, only the month counter matters, and the `Date` engine normalises
it by floor division (`Int` division by the positive constant `12` is floor
division). -/
def addMonths (year month offset : Int) : Int × Int :=
  ((12 * jsFixYear year + (month - 1) + offset) / 12,
   (12 * jsFixYear year + (month - 1) + offset) % 12 + 1)

/-! ### The civil (proleptic Gregorian) calendar kernel

A JS `Date` produced by the widget is a local midnight, identified with its
day number: the number of days since 1970-01-01.  `daysFromCivil` and
`civilFromDays` convert between day numbers and civil `(year, month, day)`
triples exactly as the ECMAScript date arithmetic does (era-based Gregorian
conversion; `Int` division by a positive constant is floor division, matching
the engine). -/

/-- The Gregorian leap-year predicate (also what `new Date(y, 1, 29)` is based
on for proleptic years). -/
def isLeap (y : Int) : Prop := y % 4 = 0 ∧ (y % 100 ≠ 0 ∨ y % 400 = 0)

instance (y : Int) : Decidable (isLeap y) := by unfold isLeap; infer_instance

/-- Length of civil month `m` of year `y`. -/
def monthLength (y m : Int) : Int :=
  if m = 2 then (if isLeap y then 29 else 28)
  else if m = 4 ∨ m = 6 ∨ m = 9 ∨ m = 11 then 30
  else 31

/-- Day number of civil date `(y, m, d)` (valid for `1 ≤ m ≤ 12`; `d` may be
any integer, counting from the first of the month). -/
def daysFromCivil (y m d : Int) : Int :=
  let yAdj := if m ≤ 2 then y - 1 else y
  let era := yAdj / 400
  let yoe := yAdj - era * 400
  let mp := (m + 9) % 12
  let doy := (153 * mp + 2) / 5 + d - 1
  let doe := 365 * yoe + yoe / 4 - yoe / 100 + doy
  era * 146097 + doe - 719468

/-- Civil date of a day number.  The year of era is recovered by the
capped-quotient decomposition of the 400-year cycle (146097 days) into
centuries (36524 days), 4-year cycles (1461 days) and years (365 days). -/
def civilFromDays (z : Int) : Int × Int × Int :=
  let doe := (z + 719468) % 146097
  let era := (z + 719468) / 146097
  let q100 := min (doe / 36524) 3
  let r100 := doe - 36524 * q100
  let q4 := r100 / 1461
  let r4 := r100 - 1461 * q4
  let q1 := min (r4 / 365) 3
  let yoe := 100 * q100 + 4 * q4 + q1
  let doy := r4 - 365 * q1
  let mp := (5 * doy + 2) / 153
  let d := doy - (153 * mp + 2) / 5 + 1
  let m := if mp < 10 then mp + 3 else mp - 9
  (era * 400 + yoe + (if mp < 10 then 0 else 1), m, d)

/-- `getFullYear()` of a day number. -/
def jsGetFullYear (z : Int) : Int := (civilFromDays z).1

/-- `getMonth()` of a day number (0-based, as in JS). -/
def jsGetMonth (z : Int) : Int := (civilFromDays z).2.1 - 1

/-- `getDate()` of a day number (day of month, 1-based). -/
def jsGetDate (z : Int) : Int := (civilFromDays z).2.2

/-- `getDay()` of a day number (0 = Sunday; 1970-01-01 was a Thursday). -/
def jsGetDay (z : Int) : Int := (z + 4) % 7

/-- First day (day number) of the month containing `z`. -/
def monthStartOf (z : Int) : Int :=
  daysFromCivil (civilFromDays z).1 (civilFromDays z).2.1 1

/-- `setDate(n)` on a copy of the date `z`: day `n` of the month containing
`z`, with the engine's normalisation for out-of-range `n`. -/
def jsSetDate (z n : Int) : Int := monthStartOf z + n - 1

/-- The JS `new Date(year, monthIndex, day)` constructor (month index is
0-based and may be out of range; the two-digit-year rule applies to the year
argument). -/
def jsMakeDate (year monthIndex day : Int) : Int :=
  daysFromCivil ((12 * jsFixYear year + monthIndex) / 12)
    ((12 * jsFixYear year + monthIndex) % 12 + 1) 1 + day - 1

/-! ### Calendar matrix builder (`main.js`, lines 30-57) -/

/-- Trim travelling from the end: the source's `while` loop pops trailing rows
for which `p` fails and stops at the first row (from the end) where `p`
holds. -/
def trimTrailing (p : List Int → Bool) (l : List (List Int)) : List (List Int) :=
  (l.reverse.dropWhile (fun r => !p r)).reverse

/-- The predicate of the trim loop: some cell of the row lies in month
`month` (`getMonth() === month - 1`). -/
def rowHasMonthDay (month : Int) (row : List Int) : Bool :=
  row.any (fun z => jsGetMonth z == month - 1)

/-- Source `buildCalendarMatrix`: six rows of seven consecutive days starting
at the Sunday on/before the first of the (engine-interpreted) month, trailing
rows without a day of the target month dropped.  `firstDay` is
`new Date(year, month - 1, 1)`, `startDate` is a copy with
`setDate(1 - startOffset)` applied, and each cell is a copy of `startDate`
with `setDate(startDate.getDate() + week * 7 + day)` applied. -/
def buildCalendarMatrix (year month : Int) : List (List Int) :=
  let firstDay := jsMakeDate year (month - 1) 1
  let startOffset := jsGetDay firstDay
  let startDate := jsSetDate firstDay (1 - startOffset)
  trimTrailing (rowHasMonthDay month)
    ((List.range 6).map (fun (week : Nat) =>
      (List.range 7).map (fun (day : Nat) =>
        jsSetDate startDate (jsGetDate startDate + ((week * 7 + day : Nat) : Int)))))

/-- Day number of the first of month `(y, m)`. -/
def monthFirst (y m : Int) : Int := daysFromCivil y m 1

/-- Day number of the first grid cell: the Sunday on/before the first of the
month. -/
def gridStart (y m : Int) : Int := monthFirst y m - jsGetDay (monthFirst y m)

/-- The untrimmed six-by-seven grid of day numbers. -/
def fullGrid (y m : Int) : List (List Int) :=
  (List.range 6).map (fun (week : Nat) =>
    (List.range 7).map (fun (day : Nat) => gridStart y m + ((week * 7 + day : Nat) : Int)))

/-- Year of the month preceding `(y, m)`. -/
def prevMonthY (y m : Int) : Int := if m = 1 then y - 1 else y

/-- Month number of the month preceding `(y, m)`. -/
def prevMonthM (m : Int) : Int := if m = 1 then 12 else m - 1

/-- Year of the month following `(y, m)`. -/
def nextMonthY (y m : Int) : Int := if m = 12 then y + 1 else y

/-- Month number of the month following `(y, m)`. -/
def nextMonthM (m : Int) : Int := if m = 12 then 1 else m + 1

/-! ### JSON values and object/Map primitives -/

/-- JSON values (the possible results of `JSON.parse`).  Numbers are modelled
as rationals so that the `Number.isInteger` guards in the source are
non-trivial. -/
inductive Json where
  | null : Json
  | bool (b : Bool) : Json
  | num (q : ℚ) : Json
  | str (s : String) : Json
  | arr (elements : List Json) : Json
  | obj (fields : List (String × Json)) : Json

/-- Property access `j.k` (`none` models `undefined`).  On parsed JSON
duplicate keys keep the last occurrence, hence the reversed search; property
access on primitives and arrays returns `undefined` for the names used
here. -/
def jsGetField (j : Json) (k : String) : Option Json :=
  match j with
  | Json.obj fields => (fields.reverse.find? (fun p => p.1 == k)).map (·.2)
  | _ => none

/-- JS truthiness combined with `typeof j === "object"`: exactly arrays and
(non-null) objects pass the `rawMonth && typeof rawMonth === "object"`
guard. -/
def truthyObject (j : Json) : Bool :=
  match j with
  | Json.arr _ => true
  | Json.obj _ => true
  | _ => false

/-- Model of the JS `Number(v)` coercion on an optional JSON value (`none`
argument models `undefined`; `none` result models `NaN`).  Array coercion is
modelled for the empty array only; non-empty arrays are treated as `NaN`
(exact only for single-element numeric arrays, which cannot change any
`Number.isInteger` guard from false to true here). -/
def jsToNumber : Option Json → Option ℚ
  | none => none
  | some Json.null => some 0
  | some (Json.bool b) => some (if b then 1 else 0)
  | some (Json.num q) => some q
  | some (Json.str s) => strToNumber s.data
  | some (Json.arr elements) => if elements.isEmpty then some 0 else none
  | some (Json.obj _) => none

/-- `Number.isInteger` composed with extraction of the integer value: `some`
exactly when the coerced number is an integer (not `NaN`). -/
def numToInt : Option ℚ → Option Int
  | none => none
  | some q => if q.den = 1 then some q.num else none

/-- Insertion-ordered association-list model of a JS `Map`: `get`. -/
def jsMapGet {α : Type} (m : List (String × α)) (k : String) : Option α :=
  (m.find? (fun p => p.1 == k)).map (·.2)

/-- Insertion-ordered association-list model of a JS `Map`: `set` (overwrite
in place if the key is present, append otherwise). -/
def jsMapSet {α : Type} (m : List (String × α)) (k : String) (v : α) :
    List (String × α) :=
  if m.any (fun p => p.1 == k) then
    m.map (fun p => if p.1 == k then (k, v) else p)
  else m ++ [(k, v)]

/-! ### Data parsing (`main.js`, lines 105-143) -/

/-- A page as rendered: `{ title, content }`. -/
structure Page where
  title : String
  content : String
deriving DecidableEq

/-- A parsed month entry. -/
structure MonthEntry where
  key : String
  year : Int
  month : Int
  days : List String
  pagesByDay : List (String × List Page)
deriving DecidableEq

/-- Source `sanitizePage`: `null` unless the page is a truthy object;
non-string `title`/`content` replaced by the empty string. -/
def sanitizePage (page : Json) : Option Page :=
  if truthyObject page then
    some
      { title := match jsGetField page "title" with
          | some (Json.str s) => s
          | _ => ""
        content := match jsGetField page "content" with
          | some (Json.str s) => s
          | _ => "" }
  else none

/-- The `day.pages` processing: `Array.isArray(day.pages) ?
day.pages.map(sanitizePage).filter(Boolean) : []`. -/
def sanitizePages (v : Option Json) : List Page :=
  match v with
  | some (Json.arr pages) => pages.filterMap sanitizePage
  | _ => []

/-- One step of the `rawDays.forEach` loop: push the day's `date` string and
`set` its sanitized pages when the day is a truthy object with a string
`date`, otherwise skip. -/
def processDay (acc : List String × List (String × List Page)) (day : Json) :
    List String × List (String × List Page) :=
  if truthyObject day then
    match jsGetField day "date" with
    | some (Json.str iso) =>
      (acc.1 ++ [iso], jsMapSet acc.2 iso (sanitizePages (jsGetField day "pages")))
    | _ => acc
  else acc

/-- JS default `Array.prototype.sort()` on an array of strings: sorts
ascending by code-unit comparison.  Since code-unit comparison is a total
order in which order-equivalent strings are equal, the sorted array is
uniquely determined, so any sorting algorithm models the engine's result;
insertion sort is used here. -/
def jsSortStrings (l : List String) : List String :=
  l.insertionSort (fun a b => charListLe a.data b.data = true)

/-- The `rawMonth.days` access: the array elements if `Array.isArray`, `[]`
otherwise. -/
def rawDaysOf (rawMonth : Json) : List Json :=
  match jsGetField rawMonth "days" with
  | some (Json.arr xs) => xs
  | _ => []

/-- The day-validity test implicit in the `rawDays.forEach` body: a day is
kept exactly when it is a truthy object with a string `date` field. -/
def dayIsValid (day : Json) : Bool :=
  truthyObject day &&
    (match jsGetField day "date" with
     | some (Json.str _) => true
     | _ => false)

/-- The `date` string of a (valid) raw day. -/
def dayDateOf (day : Json) : String :=
  match jsGetField day "date" with
  | some (Json.str s) => s
  | _ => ""

/-- Source `parseMonthData`: `null` unless the raw month is a truthy object
whose `year` and `month` coerce to integers; collects valid days (in order),
sorts the day list, and indexes pages by day. -/
def parseMonthData (rawMonth : Json) : Option MonthEntry :=
  if truthyObject rawMonth then
    match numToInt (jsToNumber (jsGetField rawMonth "year")),
        numToInt (jsToNumber (jsGetField rawMonth "month")) with
    | some year, some month =>
      some
        { key := toMonthKey year month
          year := year
          month := month
          days := jsSortStrings ((rawDaysOf rawMonth).foldl processDay ([], [])).1
          pagesByDay := ((rawDaysOf rawMonth).foldl processDay ([], [])).2 }
    | _, _ => none
  else none

/-! ### Setup fragments (`main.js`, lines 542-560 and 631-661) -/

/-- Outcome of the data-loading phase of `setupCalendar`. -/
inductive LoadOutcome where
  | parseErrorLogged : LoadOutcome
  | thrown (message : String) : LoadOutcome
  | ok (monthMap : List (String × MonthEntry)) : LoadOutcome
deriving DecidableEq

/-- The data-loading phase of `setupCalendar` (lines 542-560).  The argument
is the outcome of `JSON.parse(root.dataset.calendarData || "[]")`: `none`
when parsing throws (the `catch` logs and returns), `some v` when it returns
the value `v`.  `rawMonths.forEach` is only defined on arrays; on any other
parsed value a `TypeError` escapes the (already finished) `try` block. -/
def loadCalendarMonths (parsed : Option Json) : LoadOutcome :=
  match parsed with
  | none => LoadOutcome.parseErrorLogged
  | some (Json.arr rawMonths) =>
    LoadOutcome.ok
      (rawMonths.foldl
        (fun acc raw =>
          match parseMonthData raw with
          | some entry => jsMapSet acc entry.key entry
          | none => acc)
        [])
  | some _ => LoadOutcome.thrown "TypeError: rawMonths.forEach is not a function"

/-- The regex test `/^\d{1,2}$/.test(s)`. -/
def matchesDay12 (s : String) : Bool :=
  (s.data.length == 1 || s.data.length == 2) && s.data.all (·.isDigit)

/-- The regex test `/^\d{4}-\d{2}-\d{2}$/.test(s)`. -/
def matchesIsoDay (s : String) : Bool :=
  match s.data with
  | [a, b, c, d, e, f, g, h, i, j] =>
    a.isDigit && b.isDigit && c.isDigit && d.isDigit && (e == '-') &&
      f.isDigit && g.isDigit && (h == '-') && i.isDigit && j.isDigit
  | _ => false

/-- The `if (!activeDay)` fallback block (lines 651-661): the dataset default
day when the current key is the dataset default key and the day is present in
the month's page map, else the last element of the (sorted) day list, else
none.  A missing dataset attribute reads as the empty string (the source
applies `|| ""`), which is falsy. -/
def fallbackActiveDay (currentKey : String) (cur : MonthEntry)
    (datasetDefaultKey datasetDefaultDay : String) : Option String :=
  if currentKey = datasetDefaultKey ∧ datasetDefaultDay ≠ "" ∧
      (jsMapGet cur.pagesByDay datasetDefaultDay).isSome then
    some datasetDefaultDay
  else
    cur.days.getLast?

/-- Number of days in the current month as the source computes it:
`new Date(currentMonth.year, currentMonth.month, 0).getDate()`. -/
def daysInMonthJs (year month : Int) : Int :=
  jsGetDate (jsMakeDate year month 0)

/-- The explicit-day-parameter branch of `setupCalendar` (lines 631-649): the
value assigned to `activeDay` before the fallback block, `none` when the
parameter is absent, fails both regex tests, or is numerically out of range
(`Number` of a matched `\d{1,2}` string is its decimal value). -/
def explicitActiveDay (dayParam : Option String) (currentKey : String)
    (cur : MonthEntry) : Option String :=
  match dayParam with
  | none => none
  | some s =>
    if s ≠ "" ∧ matchesDay12 s then
      (if 1 ≤ (charsVal s.data : Int) ∧ (charsVal s.data : Int) ≤ daysInMonthJs cur.year cur.month then
        some (currentKey ++ "-" ++ padStr (charsVal s.data) 2)
      else none)
    else if s ≠ "" ∧ matchesIsoDay s ∧ s.startsWith (currentKey ++ "-") then
      some s
    else none

/-- The active-day resolution of `setupCalendar` (lines 631-661): the
explicit branch, then the `if (!activeDay)` fallback (an empty string is
falsy, so it would also fall back). -/
def resolveActiveDay (dayParam : Option String) (currentKey : String)
    (cur : MonthEntry) (datasetDefaultKey datasetDefaultDay : String) :
    Option String :=
  match explicitActiveDay dayParam currentKey cur with
  | some d =>
    if d = "" then fallbackActiveDay currentKey cur datasetDefaultKey datasetDefaultDay
    else some d
  | none => fallbackActiveDay currentKey cur datasetDefaultKey datasetDefaultDay

/-- A "valid explicit day URL parameter for the current month", following the
specification's words: either a one-or-two-digit number denoting a day of the
current month (in `1..daysInMonth`), turned into the padded `YYYY-MM-DD`
string, or a full `YYYY-MM-DD` string of the current month. -/
def specValidDayParam (dayParam : Option String) (currentKey : String)
    (cur : MonthEntry) : Option String :=
  match dayParam with
  | none => none
  | some s =>
    if matchesDay12 s ∧ 1 ≤ (charsVal s.data : Int) ∧
        (charsVal s.data : Int) ≤ daysInMonthJs cur.year cur.month then
      some (currentKey ++ "-" ++ padStr (charsVal s.data) 2)
    else if matchesIsoDay s ∧ s.startsWith (currentKey ++ "-") then
      some s
    else none

/-- The active-day precedence as the specification describes it: a valid
explicit day parameter for the current month; otherwise the dataset default
day when the current month key equals the dataset default key and that day is
present in the month's day map; otherwise the most recent (last, in ascending
order) day of the month; otherwise none.  A "valid explicit day parameter for
the current month" is either one or two digits denoting a day of the current
month, yielding the padded `YYYY-MM-DD` key, or a full `YYYY-MM-DD` string of
the current month. -/
def specActiveDay (dayParam : Option String) (currentKey : String)
    (cur : MonthEntry) (datasetDefaultKey datasetDefaultDay : String) :
    Option String :=
  match specValidDayParam dayParam currentKey cur with
  | some d => some d
  | none =>
    if currentKey = datasetDefaultKey ∧ datasetDefaultDay ≠ "" ∧
        (jsMapGet cur.pagesByDay datasetDefaultDay).isSome then
      some datasetDefaultDay
    else
      cur.days.getLast?

/-! ## Theorems -/

/-! ### Order facts about code-unit comparison -/

theorem charListLt_iff (xs ys : List Char) :
    charListLt xs ys = true ↔ List.Lex (· < ·) xs ys := by
  induction xs generalizing ys with
  | nil =>
    cases ys with
    | nil =>
      simp only [charListLt, Bool.false_eq_true, false_iff]
      exact fun h => nomatch h
    | cons b bs =>
      simp only [charListLt, true_iff]
      exact List.Lex.nil
  | cons a as ih =>
    cases ys with
    | nil =>
      simp only [charListLt, Bool.false_eq_true, false_iff]
      exact fun h => nomatch h
    | cons b bs =>
      simp only [charListLt]
      split_ifs with h1 h2
      · simp only [true_iff]
        exact List.Lex.rel h1
      · simp only [Bool.false_eq_true, false_iff]
        intro h
        cases h with
        | rel h' => exact h1 h'
        | cons h' => exact lt_irrefl a h2
      · have hab : a = b := le_antisymm (not_lt.mp h2) (not_lt.mp h1)
        subst hab
        rw [ih bs]
        constructor
        · exact List.Lex.cons
        · intro h
          cases h with
          | rel h' => exact absurd h' (lt_irrefl a)
          | cons h' => exact h'

theorem charListLt_iff_lt (a b : String) : charListLt a.data b.data = true ↔ a < b := by
  rw [charListLt_iff]
  constructor
  · intro h; exact String.lt_iff_toList_lt.mpr h
  · intro h; exact String.lt_iff_toList_lt.mp h

theorem compareMonthKey_neg_iff (a b : String) : compareMonthKey a b < 0 ↔ a < b := by
  unfold compareMonthKey
  split_ifs with h1 h2
  · constructor
    · intro _; exact (charListLt_iff_lt a b).mp h1
    · intro _; norm_num
  · constructor
    · intro h; norm_num at h
    · intro h; exact absurd ((charListLt_iff_lt a b).mpr h) h1
  · constructor
    · intro h; norm_num at h
    · intro h; exact absurd ((charListLt_iff_lt a b).mpr h) h1

theorem compareMonthKey_pos_iff (a b : String) : 0 < compareMonthKey a b ↔ b < a := by
  unfold compareMonthKey
  split_ifs with h1 h2
  · constructor
    · intro h; norm_num at h
    · intro h
      exact absurd ((charListLt_iff_lt a b).mp h1) (not_lt.mpr (le_of_lt h))
  · constructor
    · intro _; exact (charListLt_iff_lt b a).mp h2
    · intro _; norm_num
  · constructor
    · intro h; norm_num at h
    · intro h; exact absurd ((charListLt_iff_lt b a).mpr h) h2

theorem compareMonthKey_eq_zero_iff (a b : String) : compareMonthKey a b = 0 ↔ a = b := by
  unfold compareMonthKey
  split_ifs with h1 h2
  · constructor
    · intro h; norm_num at h
    · intro h
      subst h
      exact absurd ((charListLt_iff_lt a a).mp h1) (lt_irrefl a)
  · constructor
    · intro h; norm_num at h
    · intro h
      subst h
      exact absurd ((charListLt_iff_lt a a).mp h2) (lt_irrefl a)
  · constructor
    · intro _
      have hab : ¬ a < b := fun h => h1 ((charListLt_iff_lt a b).mpr h)
      have hba : ¬ b < a := fun h => h2 ((charListLt_iff_lt b a).mpr h)
      exact le_antisymm (not_lt.mp hba) (not_lt.mp hab)
    · intro _; rfl

theorem compareMonthKey_le_iff (a b : String) : compareMonthKey a b ≤ 0 ↔ a ≤ b := by
  have h : compareMonthKey a b ≤ 0 ↔
      (compareMonthKey a b < 0 ∨ compareMonthKey a b = 0) := by omega
  rw [h, compareMonthKey_neg_iff, compareMonthKey_eq_zero_iff, ← le_iff_lt_or_eq]

/-! ### C2: clamping -/

/-- C2, as stated, is false: with both bounds set but `minKey > maxKey`,
`clampMonthKey` can return a key above `maxKey`.  Concretely,
`clampMonthKey("2024-03", "2024-05", "2024-01")` returns `"2024-05"`, which
compares strictly above the max bound `"2024-01"`. -/
theorem C2_counterexample :
    clampMonthKey "2024-03" (some "2024-05") (some "2024-01") = "2024-05" ∧
      0 < compareMonthKey "2024-05" "2024-01" := by decide

/-- C2 (amended): for every key and set bounds with `minKey ≤ maxKey` under
`compareMonthKey`, the clamped key lies in `[minKey, maxKey]`. -/
theorem C2_clamped_key_within_bounds (key mn mx : String)
    (hmn : mn ≠ "") (hmx : mx ≠ "") (hord : compareMonthKey mn mx ≤ 0) :
    compareMonthKey mn (clampMonthKey key (some mn) (some mx)) ≤ 0 ∧
      compareMonthKey (clampMonthKey key (some mn) (some mx)) mx ≤ 0 := by
  simp only [clampMonthKey, clampMax]
  split_ifs with h1 h2
  · exact ⟨(compareMonthKey_le_iff mn mn).mpr le_rfl, hord⟩
  · exact ⟨hord, (compareMonthKey_le_iff mx mx).mpr le_rfl⟩
  · have hk1 : ¬ compareMonthKey key mn < 0 := fun hc => h1 ⟨hmn, hc⟩
    have hk2 : ¬ compareMonthKey key mx > 0 := fun hc => h2 ⟨hmx, hc⟩
    have hmk : mn ≤ key :=
      le_of_not_lt (fun hlt => hk1 ((compareMonthKey_neg_iff key mn).mpr hlt))
    have hkx : key ≤ mx :=
      le_of_not_lt (fun hlt => hk2 ((compareMonthKey_pos_iff key mx).mpr hlt))
    exact ⟨(compareMonthKey_le_iff mn key).mpr hmk,
      (compareMonthKey_le_iff key mx).mpr hkx⟩

theorem C2_clamped_key_within_bounds_witness :
    compareMonthKey "2024-01"
        (clampMonthKey "2024-05" (some "2024-01") (some "2024-12")) ≤ 0 ∧
      compareMonthKey (clampMonthKey "2024-05" (some "2024-01") (some "2024-12"))
        "2024-12" ≤ 0 :=
  C2_clamped_key_within_bounds "2024-05" "2024-01" "2024-12" (by decide) (by decide)
    (by decide)

/-! ### C4: addMonths -/

/-- C4, as stated, is false: the `Date` constructor interprets a year
argument in `0..99` as `1900 + year`, so `addMonths(50, 1, 0)` returns year
`1950`, violating the stated month-counter identity at `(50, 1, 0)`. -/
theorem C4_counterexample :
    addMonths 50 1 0 = (1950, 1) ∧
      ¬ (12 * (addMonths 50 1 0).1 + ((addMonths 50 1 0).2 - 1) =
          12 * 50 + (1 - 1) + 0) := by decide

/-- C4 (amended): for every year outside the two-digit range `0..99` (within
the span where the `Date` engine represents the dates involved), every month
in `1..12` and every bounded integer offset, `addMonths` returns a month in
`1..12` satisfying the month-counter identity
`12 * year' + (month' - 1) = 12 * year + (month - 1) + offset`. -/
theorem C4_addMonths_normalises (year month offset : Int)
    (hy : year < 0 ∨ 100 ≤ year) (hy1 : -100000 ≤ year) (hy2 : year ≤ 100000)
    (hm1 : 1 ≤ month) (hm2 : month ≤ 12)
    (ho1 : -1000000 ≤ offset) (ho2 : offset ≤ 1000000) :
    1 ≤ (addMonths year month offset).2 ∧ (addMonths year month offset).2 ≤ 12 ∧
      12 * (addMonths year month offset).1 + ((addMonths year month offset).2 - 1) =
        12 * year + (month - 1) + offset := by
  have hfy : jsFixYear year = year := by
    unfold jsFixYear
    rw [if_neg]
    omega
  unfold addMonths
  rw [hfy]
  refine ⟨?_, ?_, ?_⟩ <;> simp only [] <;> omega

theorem C4_addMonths_normalises_witness :
    1 ≤ (addMonths 2024 1 (-1)).2 ∧ (addMonths 2024 1 (-1)).2 ≤ 12 ∧
      12 * (addMonths 2024 1 (-1)).1 + ((addMonths 2024 1 (-1)).2 - 1) =
        12 * 2024 + (1 - 1) + (-1) :=
  C4_addMonths_normalises 2024 1 (-1) (Or.inr (by norm_num)) (by norm_num)
    (by norm_num) (by norm_num) (by norm_num) (by norm_num) (by norm_num)

/-! ### C7: error handling of the load phase -/

/-- C7, as stated, is false: the `try`/`catch` only protects `JSON.parse`;
when the attribute is the string `"5"`, parsing succeeds with the non-array
value `5`, and the subsequent `rawMonths.forEach` call throws a `TypeError`
that propagates to the caller. -/
theorem C7_counterexample :
    loadCalendarMonths (some (Json.num 5)) =
      LoadOutcome.thrown "TypeError: rawMonths.forEach is not a function" := rfl

/-- C7 (amended): when the attribute fails to parse, the error is caught and
the widget no-ops; when it parses to an array (the shape the templates emit),
the whole per-month processing completes without an exception. -/
theorem C7_no_throw_on_array_or_parse_failure :
    (∀ rawMonths : List Json, ∃ monthMap,
        loadCalendarMonths (some (Json.arr rawMonths)) = LoadOutcome.ok monthMap) ∧
      loadCalendarMonths none = LoadOutcome.parseErrorLogged :=
  ⟨fun rawMonths => ⟨_, rfl⟩, rfl⟩

/-! ### C5 and C6: active-day resolution -/

theorem matchesDay12_ne_empty {s : String} (h : matchesDay12 s = true) : s ≠ "" := by
  intro he
  subst he
  simp [matchesDay12] at h

theorem matchesIsoDay_length {s : String} (h : matchesIsoDay s = true) :
    s.data.length = 10 := by
  unfold matchesIsoDay at h
  split at h
  · next heq => rw [heq]; rfl
  · exact absurd h (by simp)

theorem matchesIsoDay_ne_empty {s : String} (h : matchesIsoDay s = true) : s ≠ "" := by
  intro he
  subst he
  simp [matchesIsoDay] at h

theorem matchesDay12_length {s : String} (h : matchesDay12 s = true) :
    s.data.length = 1 ∨ s.data.length = 2 := by
  unfold matchesDay12 at h
  rcases Bool.and_eq_true_iff.mp h with ⟨hlen, -⟩
  rcases Bool.or_eq_true_iff.mp hlen with h1 | h2
  · exact Or.inl (by exact_mod_cast Nat.beq_eq_true_eq _ _ ▸ h1)
  · exact Or.inr (by exact_mod_cast Nat.beq_eq_true_eq _ _ ▸ h2)

theorem not_matchesIsoDay_of_day12 {s : String} (h : matchesDay12 s = true) :
    ¬ matchesIsoDay s = true := by
  intro hiso
  have h10 := matchesIsoDay_length hiso
  rcases matchesDay12_length h with h1 | h2 <;> omega

theorem append_dash_ne_empty (a b : String) : a ++ "-" ++ b ≠ "" := by
  intro h
  have hd := congrArg String.data h
  rw [String.data_append, String.data_append] at hd
  have : (["-".data.getLast?.getD '-'] : List Char) ≠ [] := by simp
  rcases List.append_eq_nil.mp hd with ⟨hab, -⟩
  rcases List.append_eq_nil.mp hab with ⟨-, hdash⟩
  simp at hdash

/-- C5: the claim's first scenario is false on the code: with day parameter
`15` and a 30-day current month (April 2024), the requested day is within
range, so the widget uses `2024-04-15` instead of falling back to the default
active day (`2024-04-10`, the most recent day with content). -/
theorem C5_counterexample :
    resolveActiveDay (some "15") "2024-04"
        ⟨"2024-04", 2024, 4, ["2024-04-10"], [("2024-04-10", [⟨"T", "c"⟩])]⟩ "" "" =
      some "2024-04-15" ∧
    fallbackActiveDay "2024-04"
        ⟨"2024-04", 2024, 4, ["2024-04-10"], [("2024-04-10", [⟨"T", "c"⟩])]⟩ "" "" =
      some "2024-04-10" ∧
    daysInMonthJs 2024 4 = 30 := by decide

/-- C5 (amended): a numeric (`\d{1,2}`) day parameter whose value lies
outside `1..daysInMonth` for the current month is rejected and the fallback
(dataset default or most recent day) is used; a value inside the range (such
as 15 in a 30-day month) is used as the active day. -/
theorem C5_out_of_range_day_falls_back (s currentKey : String) (cur : MonthEntry)
    (defKey defDay : String) (hmatch : matchesDay12 s = true)
    (hrange : ¬ (1 ≤ (charsVal s.data : Int) ∧
      (charsVal s.data : Int) ≤ daysInMonthJs cur.year cur.month)) :
    resolveActiveDay (some s) currentKey cur defKey defDay =
      fallbackActiveDay currentKey cur defKey defDay := by
  have hne : s ≠ "" := matchesDay12_ne_empty hmatch
  simp only [resolveActiveDay, explicitActiveDay]
  rw [if_pos ⟨hne, hmatch⟩, if_neg hrange]

theorem C5_out_of_range_day_falls_back_witness :
    resolveActiveDay (some "31") "2023-02"
        ⟨"2023-02", 2023, 2, ["2023-02-10"], [("2023-02-10", [])]⟩ "" "" =
      fallbackActiveDay "2023-02"
        ⟨"2023-02", 2023, 2, ["2023-02-10"], [("2023-02-10", [])]⟩ "" "" :=
  C5_out_of_range_day_falls_back "31" "2023-02"
    ⟨"2023-02", 2023, 2, ["2023-02-10"], [("2023-02-10", [])]⟩ "" "" (by decide)
    (by decide)

/-- C6: the active day is resolved with the stated precedence: a valid
explicit day parameter for the current month (numeric in range, or a full
ISO day of the current month); otherwise the dataset default day when the
current key equals the dataset default key and the day is present in the
month's page map; otherwise the last element of the ascending day list;
otherwise none. -/
theorem C6_active_day_precedence (dayParam : Option String) (currentKey : String)
    (cur : MonthEntry) (defKey defDay : String) :
    resolveActiveDay dayParam currentKey cur defKey defDay =
      specActiveDay dayParam currentKey cur defKey defDay := by
  cases dayParam with
  | none => rfl
  | some s =>
    by_cases h12 : matchesDay12 s = true
    · have hne : s ≠ "" := matchesDay12_ne_empty h12
      by_cases hr : 1 ≤ (charsVal s.data : Int) ∧
          (charsVal s.data : Int) ≤ daysInMonthJs cur.year cur.month
      · simp only [resolveActiveDay, explicitActiveDay, specActiveDay,
          specValidDayParam]
        rw [if_pos ⟨hne, h12⟩, if_pos hr, if_pos ⟨h12, hr.1, hr.2⟩]
        simp [append_dash_ne_empty]
      · simp only [resolveActiveDay, explicitActiveDay, specActiveDay,
          specValidDayParam]
        rw [if_pos ⟨hne, h12⟩, if_neg hr,
          if_neg (show ¬ (matchesDay12 s = true ∧ 1 ≤ (charsVal s.data : Int) ∧
              (charsVal s.data : Int) ≤ daysInMonthJs cur.year cur.month) from
            fun hc => hr ⟨hc.2.1, hc.2.2⟩),
          if_neg (show ¬ (matchesIsoDay s = true ∧
              s.startsWith (currentKey ++ "-") = true) from
            fun hc => not_matchesIsoDay_of_day12 h12 hc.1)]
        rfl
    · by_cases hiso : matchesIsoDay s = true ∧ s.startsWith (currentKey ++ "-") = true
      · simp only [resolveActiveDay, explicitActiveDay, specActiveDay,
          specValidDayParam]
        rw [if_neg (show ¬ (s ≠ "" ∧ matchesDay12 s = true) from fun hc => h12 hc.2),
          if_pos ⟨matchesIsoDay_ne_empty hiso.1, hiso.1, hiso.2⟩,
          if_neg (show ¬ (matchesDay12 s = true ∧ 1 ≤ (charsVal s.data : Int) ∧
              (charsVal s.data : Int) ≤ daysInMonthJs cur.year cur.month) from
            fun hc => h12 hc.1),
          if_pos hiso]
        simp [matchesIsoDay_ne_empty hiso.1]
      · simp only [resolveActiveDay, explicitActiveDay, specActiveDay,
          specValidDayParam]
        rw [if_neg (show ¬ (s ≠ "" ∧ matchesDay12 s = true) from fun hc => h12 hc.2),
          if_neg (show ¬ (s ≠ "" ∧ matchesIsoDay s = true ∧
              s.startsWith (currentKey ++ "-") = true) from
            fun hc => hiso ⟨hc.2.1, hc.2.2⟩),
          if_neg (show ¬ (matchesDay12 s = true ∧ 1 ≤ (charsVal s.data : Int) ∧
              (charsVal s.data : Int) ≤ daysInMonthJs cur.year cur.month) from
            fun hc => h12 hc.1),
          if_neg (show ¬ (matchesIsoDay s = true ∧
              s.startsWith (currentKey ++ "-") = true) from fun hc => hiso hc)]
        rfl

/-! ### Map and parsing lemmas -/

theorem find?_key_cons_pos {α : Type} (k : String) (q : String × α)
    (l : List (String × α)) (h : (q.1 == k) = true) :
    List.find? (fun p => p.1 == k) (q :: l) = some q :=
  @List.find?_cons_of_pos _ (fun p => p.1 == k) q l h

theorem find?_key_cons_neg {α : Type} (k : String) (q : String × α)
    (l : List (String × α)) (h : ¬ (q.1 == k) = true) :
    List.find? (fun p => p.1 == k) (q :: l) = List.find? (fun p => p.1 == k) l :=
  @List.find?_cons_of_neg _ (fun p => p.1 == k) q l h

theorem jsMapGet_map_overwrite {α : Type} (k : String) (v : α) :
    ∀ m : List (String × α), m.any (fun p => p.1 == k) = true →
      jsMapGet (m.map (fun p => if p.1 == k then (k, v) else p)) k = some v := by
  intro m
  induction m with
  | nil => intro h; simp at h
  | cons p rest ih =>
    intro h
    by_cases hp : (p.1 == k) = true
    · unfold jsMapGet
      rw [List.map_cons, if_pos hp, find?_key_cons_pos k (k, v) _ (beq_self_eq_true k)]
      rfl
    · have hrest : rest.any (fun p => p.1 == k) = true := by
        simp only [List.any_cons, Bool.or_eq_true] at h
        exact h.resolve_left hp
      unfold jsMapGet
      rw [List.map_cons, if_neg hp, find?_key_cons_neg k p _ hp]
      exact ih hrest

theorem jsMapGet_map_overwrite_other {α : Type} (k k' : String) (v : α)
    (hk : k' ≠ k) : ∀ m : List (String × α),
      jsMapGet (m.map (fun p => if p.1 == k then (k, v) else p)) k' = jsMapGet m k' := by
  intro m
  induction m with
  | nil => rfl
  | cons p rest ih =>
    by_cases hp : (p.1 == k) = true
    · have hpk : p.1 = k := by simpa using hp
      have h1 : ¬ ((k, v).1 == k') = true := by simpa using fun h => hk h.symm
      have h2 : ¬ (p.1 == k') = true := by
        simp only [hpk]
        simpa using fun h => hk h.symm
      unfold jsMapGet
      rw [List.map_cons, if_pos hp, find?_key_cons_neg k' (k, v) _ h1,
        find?_key_cons_neg k' p _ h2]
      exact ih
    · by_cases hq : (p.1 == k') = true
      · unfold jsMapGet
        rw [List.map_cons, if_neg hp, find?_key_cons_pos k' p _ hq,
          find?_key_cons_pos k' p _ hq]
      · unfold jsMapGet
        rw [List.map_cons, if_neg hp, find?_key_cons_neg k' p _ hq,
          find?_key_cons_neg k' p _ hq]
        exact ih

theorem jsMapGet_append_self {α : Type} (k : String) (v : α) :
    ∀ m : List (String × α), m.any (fun p => p.1 == k) = false →
      jsMapGet (m ++ [(k, v)]) k = some v := by
  intro m
  induction m with
  | nil =>
    intro h
    unfold jsMapGet
    rw [List.nil_append, find?_key_cons_pos k (k, v) _ (beq_self_eq_true k)]
    rfl
  | cons p rest ih =>
    intro h
    simp only [List.any_cons, Bool.or_eq_false_iff] at h
    unfold jsMapGet
    rw [List.cons_append, find?_key_cons_neg k p _ (by simp [h.1])]
    exact ih h.2

theorem jsMapGet_append_other {α : Type} (k k' : String) (v : α) (hk : k' ≠ k) :
    ∀ m : List (String × α), jsMapGet (m ++ [(k, v)]) k' = jsMapGet m k' := by
  intro m
  induction m with
  | nil =>
    have h1 : ¬ ((k, v).1 == k') = true := by simpa using fun h => hk h.symm
    unfold jsMapGet
    rw [List.nil_append, find?_key_cons_neg k' (k, v) _ h1]
  | cons p rest ih =>
    by_cases hq : (p.1 == k') = true
    · unfold jsMapGet
      rw [List.cons_append, find?_key_cons_pos k' p _ hq, find?_key_cons_pos k' p _ hq]
    · unfold jsMapGet
      rw [List.cons_append, find?_key_cons_neg k' p _ hq, find?_key_cons_neg k' p _ hq]
      exact ih

/-- Full characterisation of `get` after `set`. -/
theorem jsMapGet_jsMapSet {α : Type} (m : List (String × α)) (k k' : String) (v : α) :
    jsMapGet (jsMapSet m k v) k' = if k' = k then some v else jsMapGet m k' := by
  unfold jsMapSet
  by_cases hany : m.any (fun p => p.1 == k) = true
  · rw [if_pos hany]
    by_cases hk : k' = k
    · subst hk
      rw [if_pos rfl]
      exact jsMapGet_map_overwrite k' v m hany
    · rw [if_neg hk]
      exact jsMapGet_map_overwrite_other k k' v hk m
  · rw [if_neg hany]
    by_cases hk : k' = k
    · subst hk
      rw [if_pos rfl]
      exact jsMapGet_append_self k' v m (Bool.not_eq_true _ ▸ hany)
    · rw [if_neg hk]
      exact jsMapGet_append_other k k' v hk m

/-- `processDay` rephrased through the validity test. -/
theorem processDay_eq (acc : List String × List (String × List Page)) (day : Json) :
    processDay acc day =
      if dayIsValid day then
        (acc.1 ++ [dayDateOf day],
          jsMapSet acc.2 (dayDateOf day) (sanitizePages (jsGetField day "pages")))
      else acc := by
  unfold processDay dayIsValid dayDateOf
  cases hobj : truthyObject day
  · simp
  · cases hdate : jsGetField day "date" with
    | none => simp
    | some jv => cases jv <;> simp

/-- The day list accumulated by the `forEach` loop is the `date` of every
valid raw day, in order. -/
theorem foldl_processDay_days (ds : List Json) :
    ∀ acc : List String × List (String × List Page),
      (ds.foldl processDay acc).1 = acc.1 ++ (ds.filter dayIsValid).map dayDateOf := by
  induction ds with
  | nil => intro acc; simp
  | cons d rest ih =>
    intro acc
    rw [List.foldl_cons, ih, processDay_eq]
    by_cases hv : dayIsValid d = true
    · simp [hv, List.filter_cons]
    · simp [hv, List.filter_cons, Bool.not_eq_true _ ▸ hv]

/-- Every day accumulated by the `forEach` loop has an entry in the
accumulated page map. -/
theorem foldl_processDay_mapInv (ds : List Json) :
    ∀ acc : List String × List (String × List Page),
      (∀ d ∈ acc.1, (jsMapGet acc.2 d).isSome = true) →
      ∀ d ∈ (ds.foldl processDay acc).1,
        (jsMapGet (ds.foldl processDay acc).2 d).isSome = true := by
  induction ds with
  | nil => intro acc h; simpa using h
  | cons x rest ih =>
    intro acc hacc
    rw [List.foldl_cons]
    apply ih
    rw [processDay_eq]
    by_cases hv : dayIsValid x = true
    · rw [if_pos hv]
      intro d hd
      rcases List.mem_append.mp hd with hd | hd
      · rw [jsMapGet_jsMapSet]
        by_cases hdk : d = dayDateOf x
        · rw [if_pos hdk]; rfl
        · rw [if_neg hdk]; exact hacc d hd
      · have hdx : d = dayDateOf x := by simpa using hd
        subst hdx
        rw [jsMapGet_jsMapSet, if_pos rfl]
        rfl
    · rw [if_neg hv]
      exact hacc

theorem charListLe_iff_le (a b : String) : charListLe a.data b.data = true ↔ a ≤ b := by
  unfold charListLe
  rw [Bool.not_eq_true']
  constructor
  · intro h
    refine le_of_not_lt (fun hba => ?_)
    rw [(charListLt_iff_lt b a).mpr hba] at h
    exact absurd h (by decide)
  · intro h
    cases hx : charListLt b.data a.data
    · rfl
    · exact absurd (not_lt.mpr h) (fun hn => hn ((charListLt_iff_lt b a).mp hx))

instance : IsTotal String (fun a b => charListLe a.data b.data = true) :=
  ⟨fun a b => by
    rcases le_total a b with h | h
    · exact Or.inl ((charListLe_iff_le a b).mpr h)
    · exact Or.inr ((charListLe_iff_le b a).mpr h)⟩

instance : IsTrans String (fun a b => charListLe a.data b.data = true) :=
  ⟨fun a b c hab hbc =>
    (charListLe_iff_le a c).mpr
      (le_trans ((charListLe_iff_le a b).mp hab) ((charListLe_iff_le b c).mp hbc))⟩

theorem jsSortStrings_sorted (l : List String) :
    (jsSortStrings l).Sorted (· ≤ ·) :=
  (List.sorted_insertionSort _ l).imp (fun h => (charListLe_iff_le _ _).mp h)

theorem mem_jsSortStrings {d : String} {l : List String} :
    d ∈ jsSortStrings l ↔ d ∈ l :=
  (List.perm_insertionSort _ l).mem_iff

/-! ### C8: malformed elements are dropped, not fatal -/

/-- C8: `parseMonthData` returns `null` exactly when the raw month is not a
(truthy) object or its `year`/`month` does not coerce to an integer; within
an accepted month, the day list keeps exactly the truthy-object days with a
string `date` (in sorted order); pages that are not truthy objects are
dropped by `sanitizePage`, and accepted pages have non-string
`title`/`content` replaced by the empty string. -/
theorem C8_parse_discards_malformed :
    (∀ j : Json, parseMonthData j = none ↔
      (truthyObject j = false ∨
        numToInt (jsToNumber (jsGetField j "year")) = none ∨
        numToInt (jsToNumber (jsGetField j "month")) = none)) ∧
    (∀ j e, parseMonthData j = some e →
      e.days = jsSortStrings (((rawDaysOf j).filter dayIsValid).map dayDateOf)) ∧
    (∀ p : Json, truthyObject p = false → sanitizePage p = none) ∧
    (∀ p pg, sanitizePage p = some pg →
      ((∃ s, jsGetField p "title" = some (Json.str s) ∧ pg.title = s) ∨ pg.title = "") ∧
      ((∃ s, jsGetField p "content" = some (Json.str s) ∧ pg.content = s) ∨
        pg.content = "")) := by
  refine ⟨?_, ?_, ?_, ?_⟩
  · intro j
    constructor
    · intro h
      by_cases hobj : truthyObject j = true
      · unfold parseMonthData at h
        rw [if_pos hobj] at h
        cases hy : numToInt (jsToNumber (jsGetField j "year")) with
        | none => exact Or.inr (Or.inl rfl)
        | some y =>
          cases hm : numToInt (jsToNumber (jsGetField j "month")) with
          | none => exact Or.inr (Or.inr rfl)
          | some m =>
            rw [hy, hm] at h
            exact absurd h (by simp)
      · exact Or.inl (Bool.not_eq_true _ ▸ hobj)
    · intro h
      unfold parseMonthData
      rcases h with h | h | h
      · rw [if_neg (by simp [h])]
      · by_cases hobj : truthyObject j = true
        · rw [if_pos hobj, h]
        · rw [if_neg hobj]
      · by_cases hobj : truthyObject j = true
        · rw [if_pos hobj, h]
          cases numToInt (jsToNumber (jsGetField j "year")) <;> rfl
        · rw [if_neg hobj]
  · intro j e h
    unfold parseMonthData at h
    by_cases hobj : truthyObject j = true
    · rw [if_pos hobj] at h
      cases hy : numToInt (jsToNumber (jsGetField j "year")) with
      | none => rw [hy] at h; simp at h
      | some y =>
        cases hm : numToInt (jsToNumber (jsGetField j "month")) with
        | none => rw [hy, hm] at h; simp at h
        | some m =>
          rw [hy, hm] at h
          have he := (Option.some.injEq _ _ ▸ h :
            ({ key := toMonthKey y m, year := y, month := m,
               days := jsSortStrings ((rawDaysOf j).foldl processDay ([], [])).1,
               pagesByDay := ((rawDaysOf j).foldl processDay ([], [])).2 } :
              MonthEntry) = e)
          rw [← he]
          simp only []
          rw [foldl_processDay_days]
          simp
    · rw [if_neg hobj] at h
      simp at h
  · intro p h
    unfold sanitizePage
    rw [if_neg (by simp [h])]
  · intro p pg h
    unfold sanitizePage at h
    by_cases hobj : truthyObject p = true
    · rw [if_pos hobj] at h
      have he := Option.some.inj h
      constructor
      · cases ht : jsGetField p "title" with
        | none => right; rw [← he]; simp [ht]
        | some jv =>
          cases jv with
          | str s => left; exact ⟨s, rfl, by rw [← he]; simp [ht]⟩
          | _ => right; rw [← he]; simp [ht]
      · cases hc : jsGetField p "content" with
        | none => right; rw [← he]; simp [hc]
        | some jv =>
          cases jv with
          | str s => left; exact ⟨s, rfl, by rw [← he]; simp [hc]⟩
          | _ => right; rw [← he]; simp [hc]
    · rw [if_neg hobj] at h
      exact absurd h (by simp)

theorem C8_parse_discards_malformed_witness :
    parseMonthData (Json.num 3) = none ∧ sanitizePage Json.null = none :=
  ⟨(C8_parse_discards_malformed.1 (Json.num 3)).mpr (Or.inl rfl),
    C8_parse_discards_malformed.2.2.1 Json.null rfl⟩

/-! ### C9: entry invariants -/

theorem parseMonthData_entry_invariants (j : Json) (e : MonthEntry)
    (h : parseMonthData j = some e) :
    e.days.Sorted (· ≤ ·) ∧ ∀ d ∈ e.days, (jsMapGet e.pagesByDay d).isSome = true := by
  unfold parseMonthData at h
  by_cases hobj : truthyObject j = true
  · rw [if_pos hobj] at h
    cases hy : numToInt (jsToNumber (jsGetField j "year")) with
    | none => rw [hy] at h; simp at h
    | some y =>
      cases hm : numToInt (jsToNumber (jsGetField j "month")) with
      | none => rw [hy, hm] at h; simp at h
      | some m =>
        rw [hy, hm] at h
        have he := Option.some.inj h
        rw [← he]
        constructor
        · exact jsSortStrings_sorted _
        · intro d hd
          have hd' := mem_jsSortStrings.mp hd
          exact foldl_processDay_mapInv (rawDaysOf j) ([], []) (by simp) d hd'
  · rw [if_neg hobj] at h
    simp at h

/-- Every entry of the month map built by the load phase satisfies a property
enjoyed by all `parseMonthData` results. -/
theorem monthMap_fold_invariant (P : MonthEntry → Prop)
    (hP : ∀ j e, parseMonthData j = some e → P e) (xs : List Json) :
    ∀ acc : List (String × MonthEntry),
      (∀ k e, jsMapGet acc k = some e → P e) →
      ∀ k e,
        jsMapGet
          (xs.foldl
            (fun acc raw =>
              match parseMonthData raw with
              | some entry => jsMapSet acc entry.key entry
              | none => acc)
            acc) k = some e → P e := by
  induction xs with
  | nil => intro acc hacc; exact hacc
  | cons x rest ih =>
    intro acc hacc
    rw [List.foldl_cons]
    apply ih
    cases hx : parseMonthData x with
    | none => exact hacc
    | some entry =>
      intro k e hk
      rw [jsMapGet_jsMapSet] at hk
      by_cases hke : k = entry.key
      · rw [if_pos hke] at hk
        exact Option.some.inj hk ▸ hP x entry hx
      · rw [if_neg hke] at hk
        exact hacc k e hk

/-- C9: every month entry produced by `parseMonthData` has its day list
sorted ascending (code-unit/lexicographic order) and every listed day has an
entry in the `pagesByDay` map; consequently every entry placed in the
month-key-to-entry mapping during a load satisfies the invariant. -/
theorem C9_entry_invariants :
    (∀ j e, parseMonthData j = some e →
      e.days.Sorted (· ≤ ·) ∧
        ∀ d ∈ e.days, (jsMapGet e.pagesByDay d).isSome = true) ∧
    (∀ (rawMonths : List Json) (monthMap : List (String × MonthEntry)),
      loadCalendarMonths (some (Json.arr rawMonths)) = LoadOutcome.ok monthMap →
      ∀ k e, jsMapGet monthMap k = some e →
        e.days.Sorted (· ≤ ·) ∧
          ∀ d ∈ e.days, (jsMapGet e.pagesByDay d).isSome = true) := by
  refine ⟨parseMonthData_entry_invariants, ?_⟩
  intro rawMonths monthMap hload k e hk
  have hmm : monthMap =
      rawMonths.foldl
        (fun acc raw =>
          match parseMonthData raw with
          | some entry => jsMapSet acc entry.key entry
          | none => acc)
        [] := by
    have := LoadOutcome.ok.inj hload.symm
    exact this
  rw [hmm] at hk
  exact monthMap_fold_invariant _ parseMonthData_entry_invariants rawMonths []
    (fun k e h => by simp [jsMapGet] at h) k e hk

theorem C9_entry_invariants_witness :
    (["2024-04-02", "2024-04-10"] : List String).Sorted (· ≤ ·) ∧
      ∀ d ∈ (["2024-04-02", "2024-04-10"] : List String),
        (jsMapGet [("2024-04-10", ([] : List Page)), ("2024-04-02", [])] d).isSome
          = true :=
  C9_entry_invariants.1
    (Json.obj [("year", Json.num 2024), ("month", Json.num 4),
      ("days", Json.arr [Json.obj [("date", Json.str "2024-04-10")],
        Json.obj [("date", Json.str "2024-04-02")]])])
    ⟨"2024-04", 2024, 4, ["2024-04-02", "2024-04-10"],
      [("2024-04-10", []), ("2024-04-02", [])]⟩
    (by decide)

/-! ### Decimal-string arithmetic (towards C1 and C10) -/

theorem digitChar_lt_iff : ∀ d1 < 10, ∀ d2 < 10,
    (Nat.digitChar d1 < Nat.digitChar d2 ↔ d1 < d2) := by decide

theorem digitChar_isDigit : ∀ d < 10, (Nat.digitChar d).isDigit = true := by decide

theorem digitChar_ne_dash : ∀ d < 10, Nat.digitChar d ≠ '-' := by decide

theorem digitChar_val : ∀ d < 10, (Nat.digitChar d).toNat - 48 = d := by decide

theorem padDigits_length : ∀ (n v : Nat), (padDigits v n).length = n := by
  intro n
  induction n with
  | zero => intro v; rfl
  | succ n ih => intro v; simp only [padDigits, List.length_cons, ih]

theorem padDigits_lt_ten (n : Nat) : ∀ v, v < 10 ^ n → ∀ d ∈ padDigits v n, d < 10 := by
  induction n with
  | zero => intro v hv d hd; simp [padDigits] at hd
  | succ n ih =>
    intro v hv d hd
    simp only [padDigits, List.mem_cons] at hd
    rcases hd with hd | hd
    · subst hd
      have h10 : v < 10 ^ n * 10 := by
        rw [← pow_succ]
        exact hv
      exact Nat.div_lt_of_lt_mul h10
    · exact ih (v % 10 ^ n)
        (Nat.mod_lt _ (Nat.pos_pow_of_pos n (by norm_num))) d hd

theorem padDigits_zero_eq (n : Nat) : padDigits 0 n = List.replicate n 0 := by
  induction n with
  | zero => rfl
  | succ n ih =>
    simp only [padDigits, Nat.zero_div, Nat.zero_mod, ih, List.replicate_succ]

theorem padDigits_split (n k v : Nat) (hk : k ≤ n) (hv : v < 10 ^ k) :
    padDigits v n = List.replicate (n - k) 0 ++ padDigits v k := by
  induction n with
  | zero =>
    have : k = 0 := Nat.le_zero.mp hk
    subst this
    rfl
  | succ n ih =>
    by_cases hkn : k = n + 1
    · subst hkn
      simp
    · have hk' : k ≤ n := by omega
      have hvn : v < 10 ^ n := lt_of_lt_of_le hv (Nat.pow_le_pow_right (by norm_num) hk')
      have h1 : v / 10 ^ n = 0 := Nat.div_eq_of_lt hvn
      have h2 : v % 10 ^ n = v := Nat.mod_eq_of_lt hvn
      simp only [padDigits, h1, h2, ih hk']
      rw [show n + 1 - k = (n - k) + 1 from by omega, List.replicate_succ]
      rfl

theorem padDigits_snoc (n : Nat) : ∀ v, v < 10 ^ (n + 1) →
    padDigits v (n + 1) = padDigits (v / 10) n ++ [v % 10] := by
  induction n with
  | zero =>
    intro v hv
    have : v < 10 := by simpa using hv
    simp [padDigits, Nat.mod_eq_of_lt this, Nat.div_eq_of_lt this]
  | succ n ih =>
    intro v hv
    have hmod : v % 10 ^ (n + 1) < 10 ^ (n + 1) :=
      Nat.mod_lt _ (Nat.pos_pow_of_pos _ (by norm_num))
    have hstep : padDigits v (n + 1 + 1) =
        v / 10 ^ (n + 1) :: padDigits (v % 10 ^ (n + 1)) (n + 1) := rfl
    have hstep2 : padDigits (v / 10) (n + 1) =
        v / 10 / 10 ^ n :: padDigits (v / 10 % 10 ^ n) n := rfl
    rw [hstep, ih (v % 10 ^ (n + 1)) hmod, hstep2]
    have e1 : v / 10 ^ (n + 1) = v / 10 / 10 ^ n := by
      rw [Nat.div_div_eq_div_mul]
      congr 1
      ring
    have e2 : v % 10 ^ (n + 1) / 10 = v / 10 % 10 ^ n := by
      rw [show (10 : Nat) ^ (n + 1) = 10 * 10 ^ n from by ring]
      exact Nat.mod_mul_right_div_self v 10 (10 ^ n)
    have e3 : v % 10 ^ (n + 1) % 10 = v % 10 := by
      apply Nat.mod_mod_of_dvd
      exact ⟨10 ^ n, by ring⟩
    rw [e1, e2, e3]
    rfl

theorem padDigits_foldl_val (n : Nat) : ∀ v a, v < 10 ^ n →
    (padDigits v n).foldl (fun acc d => 10 * acc + d) a = a * 10 ^ n + v := by
  induction n with
  | zero =>
    intro v a hv
    have : v = 0 := by simpa using hv
    subst this
    simp [padDigits]
  | succ n ih =>
    intro v a hv
    have hmod : v % 10 ^ n < 10 ^ n := Nat.mod_lt _ (Nat.pos_pow_of_pos _ (by norm_num))
    simp only [padDigits, List.foldl_cons]
    rw [ih (v % 10 ^ n) _ hmod]
    have hsplit : v = 10 ^ n * (v / 10 ^ n) + v % 10 ^ n := (Nat.div_add_mod v (10 ^ n)).symm
    calc (10 * a + v / 10 ^ n) * 10 ^ n + v % 10 ^ n
        = a * 10 ^ (n + 1) + (10 ^ n * (v / 10 ^ n) + v % 10 ^ n) := by ring
    _ = a * 10 ^ (n + 1) + v := by rw [← hsplit]

theorem natReprAux_eq_padDigits :
    ∀ (n fuel v : Nat), 10 ^ n ≤ v → v < 10 ^ (n + 1) → v < fuel →
      natReprAux fuel v = (padDigits v (n + 1)).map Nat.digitChar := by
  intro n
  induction n with
  | zero =>
    intro fuel v h1 h2 hf
    cases fuel with
    | zero => omega
    | succ f =>
      have hv10 : v < 10 := by simpa using h2
      simp only [natReprAux, if_pos hv10]
      have hpd : padDigits v 1 = [v] := by
        simp [padDigits]
      rw [hpd]
      rfl
  | succ n ih =>
    intro fuel v h1 h2 hf
    cases fuel with
    | zero => omega
    | succ f =>
      have h10n : (10 : Nat) ≤ 10 ^ (n + 1) := by
        calc (10 : Nat) = 10 ^ 1 := (pow_one 10).symm
        _ ≤ 10 ^ (n + 1) := Nat.pow_le_pow_right (by norm_num) (by omega)
      have hnot : ¬ v < 10 := by omega
      simp only [natReprAux, if_neg hnot]
      have hdiv1 : 10 ^ n ≤ v / 10 := by
        rw [Nat.le_div_iff_mul_le (by norm_num)]
        calc 10 ^ n * 10 = 10 ^ (n + 1) := (pow_succ 10 n).symm
        _ ≤ v := h1
      have hdiv2 : v / 10 < 10 ^ (n + 1) := by
        apply Nat.div_lt_of_lt_mul
        calc v < 10 ^ (n + 1 + 1) := h2
        _ = 10 * 10 ^ (n + 1) := by ring
      have hfuel : v / 10 < f := by
        have hdl : v / 10 < v := Nat.div_lt_self (by omega) (by norm_num)
        omega
      rw [ih f (v / 10) hdiv1 hdiv2 hfuel, padDigits_snoc (n + 1) v h2,
        List.map_append]
      rfl

/-- The source `pad` agrees with the canonical fixed-width digit list on the
representable range. -/
theorem pad_natCast_eq (n v : Nat) (hn : 0 < n) (hv : v < 10 ^ n) :
    pad (v : Int) n = (padDigits v n).map Nat.digitChar := by
  have hint : ¬ ((v : Int) < 0) := not_lt.mpr (Int.natCast_nonneg v)
  unfold pad intRepr
  rw [if_neg hint, Int.toNat_natCast]
  by_cases hv0 : v = 0
  · subst hv0
    have hrepr : natRepr 0 = ['0'] := rfl
    unfold padStartChars
    rw [hrepr, padDigits_zero_eq, List.map_replicate]
    obtain ⟨m, rfl⟩ : ∃ m, n = m + 1 := ⟨n - 1, by omega⟩
    show List.replicate (m + 1 - 1) '0' ++ ['0'] = List.replicate (m + 1) (Nat.digitChar 0)
    rw [show Nat.digitChar 0 = '0' from rfl, show m + 1 - 1 = m from rfl,
      List.replicate_succ']
  · have hvpos : 0 < v := Nat.pos_of_ne_zero hv0
    have hk1 : 10 ^ Nat.log 10 v ≤ v := Nat.pow_log_le_self 10 hv0
    have hk2 : v < 10 ^ (Nat.log 10 v + 1) := Nat.lt_pow_succ_log_self (by norm_num) v
    have hkn : Nat.log 10 v + 1 ≤ n := by
      by_contra hcon
      have hnk : n ≤ Nat.log 10 v := by omega
      have : (10 : Nat) ^ n ≤ 10 ^ Nat.log 10 v := Nat.pow_le_pow_right (by norm_num) hnk
      omega
    have hrepr : natRepr v = (padDigits v (Nat.log 10 v + 1)).map Nat.digitChar :=
      natReprAux_eq_padDigits (Nat.log 10 v) (v + 1) v hk1 hk2 (by omega)
    unfold padStartChars
    rw [hrepr, List.length_map, padDigits_length,
      padDigits_split n (Nat.log 10 v + 1) v hkn hk2, List.map_append,
      List.map_replicate]
    rfl

/-! ### Lexicographic comparison of fixed-width digit strings -/

theorem lex_cons_iff (a b : Char) (l1 l2 : List Char) :
    List.Lex (· < ·) (a :: l1) (b :: l2) ↔
      a < b ∨ (a = b ∧ List.Lex (· < ·) l1 l2) := by
  constructor
  · intro h
    cases h with
    | rel h => exact Or.inl h
    | cons h => exact Or.inr ⟨rfl, h⟩
  · intro h
    rcases h with h | ⟨rfl, h⟩
    · exact List.Lex.rel h
    · exact List.Lex.cons h

theorem lex_append_iff :
    ∀ (A1 A2 t1 t2 : List Char), A1.length = A2.length →
      (List.Lex (· < ·) (A1 ++ t1) (A2 ++ t2) ↔
        List.Lex (· < ·) A1 A2 ∨ (A1 = A2 ∧ List.Lex (· < ·) t1 t2)) := by
  intro A1
  induction A1 with
  | nil =>
    intro A2 t1 t2 hlen
    have hA2 : A2 = [] := List.length_eq_zero.mp (by simpa using hlen.symm)
    subst hA2
    rw [List.nil_append, List.nil_append]
    constructor
    · intro h
      exact Or.inr ⟨rfl, h⟩
    · intro h
      rcases h with h | ⟨-, h⟩
      · exact absurd h (fun hx => nomatch hx)
      · exact h
  | cons a A1' ih =>
    intro A2 t1 t2 hlen
    cases A2 with
    | nil => simp at hlen
    | cons b A2' =>
      have hlen' : A1'.length = A2'.length := by simpa using hlen
      rw [List.cons_append, List.cons_append, lex_cons_iff, lex_cons_iff,
        ih A2' t1 t2 hlen']
      constructor
      · rintro (h | ⟨rfl, h | ⟨rfl, h⟩⟩)
        · exact Or.inl (Or.inl h)
        · exact Or.inl (Or.inr ⟨rfl, h⟩)
        · exact Or.inr ⟨rfl, h⟩
      · rintro ((h | ⟨rfl, h⟩) | ⟨heq, h⟩)
        · exact Or.inl h
        · exact Or.inr ⟨rfl, Or.inl h⟩
        · cases heq
          exact Or.inr ⟨rfl, Or.inr ⟨rfl, h⟩⟩

theorem base_lt_iff (B q1 r1 q2 r2 : Nat) (h1 : r1 < B) (h2 : r2 < B) :
    q1 * B + r1 < q2 * B + r2 ↔ (q1 < q2 ∨ (q1 = q2 ∧ r1 < r2)) := by
  rcases lt_trichotomy q1 q2 with h | h | h
  · apply iff_of_true _ (Or.inl h)
    calc q1 * B + r1 < q1 * B + B := by omega
    _ = (q1 + 1) * B := by ring
    _ ≤ q2 * B := Nat.mul_le_mul_right B h
    _ ≤ q2 * B + r2 := by omega
  · subst h
    constructor
    · intro hlt
      exact Or.inr ⟨rfl, by omega⟩
    · rintro (h | ⟨-, h⟩) <;> omega
  · apply iff_of_false
    · intro hlt
      have hgt : q2 * B + r2 < q1 * B + r1 := by
        calc q2 * B + r2 < q2 * B + B := by omega
        _ = (q2 + 1) * B := by ring
        _ ≤ q1 * B := Nat.mul_le_mul_right B h
        _ ≤ q1 * B + r1 := by omega
      omega
    · rintro (hq | ⟨hq, -⟩) <;> omega

theorem padDigits_lex_iff :
    ∀ (n v1 v2 : Nat), v1 < 10 ^ n → v2 < 10 ^ n →
      (List.Lex (· < ·) ((padDigits v1 n).map Nat.digitChar)
        ((padDigits v2 n).map Nat.digitChar) ↔ v1 < v2) := by
  intro n
  induction n with
  | zero =>
    intro v1 v2 h1 h2
    have e1 : v1 = 0 := by simpa using h1
    have e2 : v2 = 0 := by simpa using h2
    subst e1
    subst e2
    exact iff_of_false (fun h => nomatch h) (by omega)
  | succ n ih =>
    intro v1 v2 h1 h2
    have hpow : 0 < 10 ^ n := Nat.pos_pow_of_pos n (by norm_num)
    have hq1 : v1 / 10 ^ n < 10 := Nat.div_lt_of_lt_mul (by
      calc v1 < 10 ^ (n + 1) := h1
      _ = 10 ^ n * 10 := by ring)
    have hq2 : v2 / 10 ^ n < 10 := Nat.div_lt_of_lt_mul (by
      calc v2 < 10 ^ (n + 1) := h2
      _ = 10 ^ n * 10 := by ring)
    have hr1 : v1 % 10 ^ n < 10 ^ n := Nat.mod_lt _ hpow
    have hr2 : v2 % 10 ^ n < 10 ^ n := Nat.mod_lt _ hpow
    simp only [padDigits, List.map_cons]
    rw [lex_cons_iff, digitChar_lt_iff _ hq1 _ hq2, ih _ _ hr1 hr2]
    have hinj : Nat.digitChar (v1 / 10 ^ n) = Nat.digitChar (v2 / 10 ^ n) ↔
        v1 / 10 ^ n = v2 / 10 ^ n := by
      constructor
      · intro h
        by_contra hne
        rcases Nat.lt_or_ge (v1 / 10 ^ n) (v2 / 10 ^ n) with hlt | hge
        · have hx := (digitChar_lt_iff _ hq1 _ hq2).mpr hlt
          rw [h] at hx
          exact lt_irrefl _ hx
        · have hgt : v2 / 10 ^ n < v1 / 10 ^ n := by omega
          have hx := (digitChar_lt_iff _ hq2 _ hq1).mpr hgt
          rw [h] at hx
          exact lt_irrefl _ hx
      · intro h
        rw [h]
    rw [hinj, ← base_lt_iff (10 ^ n) _ _ _ _ hr1 hr2, Nat.div_add_mod',
      Nat.div_add_mod']

theorem charsVal_map_digitChar :
    ∀ (ds : List Nat) (a : Nat), (∀ d ∈ ds, d < 10) →
      (ds.map Nat.digitChar).foldl (fun acc c => 10 * acc + (c.toNat - 48)) a =
        ds.foldl (fun acc d => 10 * acc + d) a := by
  intro ds
  induction ds with
  | nil => intro a h; rfl
  | cons d rest ih =>
    intro a h
    simp only [List.map_cons, List.foldl_cons]
    rw [digitChar_val d (h d (by simp))]
    exact ih _ (fun x hx => h x (by simp [hx]))

theorem charsVal_padDigits (n v : Nat) (hv : v < 10 ^ n) :
    charsVal ((padDigits v n).map Nat.digitChar) = v := by
  unfold charsVal
  rw [charsVal_map_digitChar _ 0 (padDigits_lt_ten n v hv),
    padDigits_foldl_val n v 0 hv]
  simp

theorem toMonthKey_data (y m : Int) :
    (toMonthKey y m).data = pad y 4 ++ ('-' :: pad m 2) := by
  show ((padStr y 4 ++ "-" ++ padStr m 2)).data = _
  rw [String.data_append, String.data_append, List.append_assoc]
  rfl

theorem toMonthKey_lt_iff (y1 m1 y2 m2 : Nat)
    (hy1 : y1 < 10 ^ 4) (hy2 : y2 < 10 ^ 4) (hm1 : m1 < 10 ^ 2) (hm2 : m2 < 10 ^ 2) :
    (toMonthKey (y1 : Int) (m1 : Int) < toMonthKey (y2 : Int) (m2 : Int) ↔
      (y1 < y2 ∨ (y1 = y2 ∧ m1 < m2))) := by
  have hlex : toMonthKey (y1 : Int) (m1 : Int) < toMonthKey (y2 : Int) (m2 : Int) ↔
      List.Lex (· < ·) (toMonthKey (y1 : Int) (m1 : Int)).data
        (toMonthKey (y2 : Int) (m2 : Int)).data := by
    constructor
    · intro h; exact String.lt_iff_toList_lt.mp h
    · intro h; exact String.lt_iff_toList_lt.mpr h
  rw [hlex, toMonthKey_data, toMonthKey_data, pad_natCast_eq 4 y1 (by norm_num) hy1,
    pad_natCast_eq 4 y2 (by norm_num) hy2, pad_natCast_eq 2 m1 (by norm_num) hm1,
    pad_natCast_eq 2 m2 (by norm_num) hm2,
    lex_append_iff _ _ _ _
      (by rw [List.length_map, List.length_map, padDigits_length, padDigits_length]),
    padDigits_lex_iff 4 y1 y2 hy1 hy2, lex_cons_iff,
    padDigits_lex_iff 2 m1 m2 hm1 hm2]
  have hdash : ¬ ('-' : Char) < '-' := by decide
  have hinjY : (padDigits y1 4).map Nat.digitChar = (padDigits y2 4).map Nat.digitChar ↔
      y1 = y2 := by
    constructor
    · intro h
      have h1 := charsVal_padDigits 4 y1 hy1
      have h2 := charsVal_padDigits 4 y2 hy2
      rw [← h1, ← h2, h]
    · intro h
      rw [h]
  constructor
  · rintro (h | ⟨hEq, hd | ⟨-, hmlt⟩⟩)
    · exact Or.inl h
    · exact absurd hd hdash
    · exact Or.inr ⟨hinjY.mp hEq, hmlt⟩
  · rintro (h | ⟨rfl, hmlt⟩)
    · exact Or.inl h
    · exact Or.inr ⟨rfl, Or.inr ⟨rfl, hmlt⟩⟩

theorem toMonthKey_eq_iff (y1 m1 y2 m2 : Nat)
    (hy1 : y1 < 10 ^ 4) (hy2 : y2 < 10 ^ 4) (hm1 : m1 < 10 ^ 2) (hm2 : m2 < 10 ^ 2) :
    (toMonthKey (y1 : Int) (m1 : Int) = toMonthKey (y2 : Int) (m2 : Int) ↔
      (y1 = y2 ∧ m1 = m2)) := by
  constructor
  · intro h
    have h1 : ¬ toMonthKey (y1 : Int) (m1 : Int) < toMonthKey (y2 : Int) (m2 : Int) := by
      rw [h]
      exact lt_irrefl _
    have h2 : ¬ toMonthKey (y2 : Int) (m2 : Int) < toMonthKey (y1 : Int) (m1 : Int) := by
      rw [h]
      exact lt_irrefl _
    rw [toMonthKey_lt_iff y1 m1 y2 m2 hy1 hy2 hm1 hm2] at h1
    rw [toMonthKey_lt_iff y2 m2 y1 m1 hy2 hy1 hm2 hm1] at h2
    constructor <;> omega
  · rintro ⟨rfl, rfl⟩
    rfl

/-! ### C1: month-key comparison is chronological -/

/-- C1: for years in `0..9999` and months in `1..12`, the sign of
`compareMonthKey (toMonthKey y1 m1) (toMonthKey y2 m2)` is negative exactly
when `(y1, m1)` is chronologically before `(y2, m2)`, zero exactly on equal
months, and positive exactly when it is after. -/
theorem C1_compare_chronological (y1 m1 y2 m2 : Nat)
    (hy1 : y1 ≤ 9999) (hy2 : y2 ≤ 9999)
    (hm1 : 1 ≤ m1) (hm1' : m1 ≤ 12) (hm2 : 1 ≤ m2) (hm2' : m2 ≤ 12) :
    (compareMonthKey (toMonthKey (y1 : Int) (m1 : Int)) (toMonthKey (y2 : Int) (m2 : Int)) < 0 ↔
      (y1 < y2 ∨ (y1 = y2 ∧ m1 < m2))) ∧
    (compareMonthKey (toMonthKey (y1 : Int) (m1 : Int)) (toMonthKey (y2 : Int) (m2 : Int)) = 0 ↔
      (y1 = y2 ∧ m1 = m2)) ∧
    (0 < compareMonthKey (toMonthKey (y1 : Int) (m1 : Int)) (toMonthKey (y2 : Int) (m2 : Int)) ↔
      (y2 < y1 ∨ (y2 = y1 ∧ m2 < m1))) := by
  have hp4 : (10 : Nat) ^ 4 = 10000 := by norm_num
  have hp2 : (10 : Nat) ^ 2 = 100 := by norm_num
  have b1 : y1 < 10 ^ 4 := by omega
  have b2 : y2 < 10 ^ 4 := by omega
  have c1 : m1 < 10 ^ 2 := by omega
  have c2 : m2 < 10 ^ 2 := by omega
  refine ⟨?_, ?_, ?_⟩
  · rw [compareMonthKey_neg_iff, toMonthKey_lt_iff y1 m1 y2 m2 b1 b2 c1 c2]
  · rw [compareMonthKey_eq_zero_iff, toMonthKey_eq_iff y1 m1 y2 m2 b1 b2 c1 c2]
  · rw [compareMonthKey_pos_iff, toMonthKey_lt_iff y2 m2 y1 m1 b2 b1 c2 c1]

theorem C1_compare_chronological_witness :
    (compareMonthKey (toMonthKey ((2023 : Nat) : Int) ((12 : Nat) : Int))
        (toMonthKey ((2024 : Nat) : Int) ((1 : Nat) : Int)) < 0 ↔
      ((2023 : Nat) < 2024 ∨ ((2023 : Nat) = 2024 ∧ (12 : Nat) < 1))) ∧
    (compareMonthKey (toMonthKey ((2023 : Nat) : Int) ((12 : Nat) : Int))
        (toMonthKey ((2024 : Nat) : Int) ((1 : Nat) : Int)) = 0 ↔
      ((2023 : Nat) = 2024 ∧ (12 : Nat) = 1)) ∧
    (0 < compareMonthKey (toMonthKey ((2023 : Nat) : Int) ((12 : Nat) : Int))
        (toMonthKey ((2024 : Nat) : Int) ((1 : Nat) : Int)) ↔
      ((2024 : Nat) < 2023 ∨ ((2024 : Nat) = 2023 ∧ (1 : Nat) < 12))) :=
  C1_compare_chronological 2023 12 2024 1 (by norm_num) (by norm_num) (by norm_num)
    (by norm_num) (by norm_num) (by norm_num)

/-! ### C10: parseMonthKey inverts toMonthKey -/

theorem splitOnAux_append (sep : Char) (B : List Char) :
    ∀ (A acc : List Char), (∀ c ∈ A, c ≠ sep) →
      splitOnAux sep (A ++ sep :: B) acc = (acc.reverse ++ A) :: splitOnAux sep B [] := by
  intro A
  induction A with
  | nil =>
    intro acc h
    have hstep : splitOnAux sep (sep :: B) acc =
        if sep = sep then acc.reverse :: splitOnAux sep B []
        else splitOnAux sep B (sep :: acc) := rfl
    rw [List.nil_append, hstep, if_pos rfl, List.append_nil]
  | cons c A' ih =>
    intro acc h
    have hc : c ≠ sep := h c (by simp)
    have hstep : splitOnAux sep (c :: (A' ++ sep :: B)) acc =
        if c = sep then acc.reverse :: splitOnAux sep (A' ++ sep :: B) []
        else splitOnAux sep (A' ++ sep :: B) (c :: acc) := rfl
    rw [List.cons_append, hstep, if_neg hc,
      ih (c :: acc) (fun x hx => h x (by simp [hx])), List.reverse_cons,
      List.append_assoc]
    rfl

theorem splitOnAux_no_sep (sep : Char) :
    ∀ (B acc : List Char), (∀ c ∈ B, c ≠ sep) →
      splitOnAux sep B acc = [acc.reverse ++ B] := by
  intro B
  induction B with
  | nil =>
    intro acc h
    show [acc.reverse] = [acc.reverse ++ []]
    rw [List.append_nil]
  | cons c B' ih =>
    intro acc h
    have hc : c ≠ sep := h c (by simp)
    have hstep : splitOnAux sep (c :: B') acc =
        if c = sep then acc.reverse :: splitOnAux sep B' []
        else splitOnAux sep B' (c :: acc) := rfl
    rw [hstep, if_neg hc, ih (c :: acc) (fun x hx => h x (by simp [hx])),
      List.reverse_cons, List.append_assoc]
    rfl

theorem pad_nat_digits (n v : Nat) (hn : 0 < n) (hv : v < 10 ^ n) :
    ∀ c ∈ pad (v : Int) n, c.isDigit = true := by
  rw [pad_natCast_eq n v hn hv]
  intro c hc
  rcases List.mem_map.mp hc with ⟨d, hd, rfl⟩
  exact digitChar_isDigit d (padDigits_lt_ten n v hv d hd)

theorem pad_nat_no_dash (n v : Nat) (hn : 0 < n) (hv : v < 10 ^ n) :
    ∀ c ∈ pad (v : Int) n, c ≠ '-' := by
  intro c hc he
  have hd := pad_nat_digits n v hn hv c hc
  rw [he] at hd
  exact absurd hd (by decide)

theorem pad_nat_ne_nil (n v : Nat) (hn : 0 < n) (hv : v < 10 ^ n) :
    pad (v : Int) n ≠ [] := by
  rw [pad_natCast_eq n v hn hv]
  intro h
  have hlen := congrArg List.length h
  rw [List.length_map, padDigits_length] at hlen
  simp at hlen
  omega

theorem charsVal_pad (n v : Nat) (hn : 0 < n) (hv : v < 10 ^ n) :
    charsVal (pad (v : Int) n) = v := by
  rw [pad_natCast_eq n v hn hv, charsVal_padDigits n v hv]

/-- C10: on the zero-padded representable range (`year` in `0..9999`,
`month` in `0..99`), `parseMonthKey` is a left inverse of `toMonthKey`,
returning exactly the year and the month as numbers. -/
theorem C10_parseMonthKey_toMonthKey (y m : Nat) (hy : y ≤ 9999) (hm : m ≤ 99) :
    parseMonthKey (toMonthKey (y : Int) (m : Int)) =
      ⟨some (y : ℚ), some (m : ℚ)⟩ := by
  have hp4 : (10 : Nat) ^ 4 = 10000 := by norm_num
  have hp2 : (10 : Nat) ^ 2 = 100 := by norm_num
  have by4 : y < 10 ^ 4 := by omega
  have bm2 : m < 10 ^ 2 := by omega
  have hsplit : splitOn '-' (toMonthKey (y : Int) (m : Int)).data =
      [pad (y : Int) 4, pad (m : Int) 2] := by
    rw [toMonthKey_data]
    unfold splitOn
    rw [splitOnAux_append '-' (pad (m : Int) 2) (pad (y : Int) 4) []
        (pad_nat_no_dash 4 y (by norm_num) by4),
      splitOnAux_no_sep '-' (pad (m : Int) 2) []
        (pad_nat_no_dash 2 m (by norm_num) bm2)]
    rfl
  have hnum : ∀ (n v : Nat), 0 < n → v < 10 ^ n →
      jsNumberOfPart (some (pad (v : Int) n)) = some (v : ℚ) := by
    intro n v hn hv
    simp only [jsNumberOfPart, strToNumber]
    rw [if_neg (by
        intro hcon
        exact pad_nat_ne_nil n v hn hv (List.isEmpty_iff.mp hcon)),
      if_pos (List.all_eq_true.mpr (fun c hc => pad_nat_digits n v hn hv c hc)),
      charsVal_pad n v hn hv]
  unfold parseMonthKey
  rw [hsplit]
  show ParsedMonthKey.mk (jsNumberOfPart (some (pad (y : Int) 4)))
      (jsNumberOfPart (some (pad (m : Int) 2))) = _
  rw [hnum 4 y (by norm_num) by4, hnum 2 m (by norm_num) bm2]

theorem C10_parseMonthKey_toMonthKey_witness :
    parseMonthKey (toMonthKey ((2024 : Nat) : Int) ((5 : Nat) : Int)) =
      ⟨some ((2024 : Nat) : ℚ), some ((5 : Nat) : ℚ)⟩ :=
  C10_parseMonthKey_toMonthKey 2024 5 (by norm_num) (by norm_num)

/-! ### The calendar kernel: civil/day-number roundtrip -/

theorem yoe_extraction (yoe doy doe q100 r100 q4 r4 q1 : Int)
    (hy0 : 0 ≤ yoe) (hy1 : yoe ≤ 399) (hd0 : 0 ≤ doy)
    (hd1 : doy ≤ 364 +
      (if (yoe + 1) % 4 = 0 ∧ ((yoe + 1) % 100 ≠ 0 ∨ (yoe + 1) % 400 = 0) then 1
        else 0))
    (hdoe : doe = 365 * yoe + yoe / 4 - yoe / 100 + doy)
    (hq100 : q100 = min (doe / 36524) 3)
    (hr100 : r100 = doe - 36524 * q100)
    (hq4 : q4 = r100 / 1461)
    (hr4 : r4 = r100 - 1461 * q4)
    (hq1 : q1 = min (r4 / 365) 3) :
    100 * q100 + 4 * q4 + q1 = yoe ∧ r4 - 365 * q1 = doy := by
  have hd1' : doy ≤ 365 ∧ (doy = 365 → yoe % 4 = 3 ∧ (yoe % 100 ≠ 99 ∨ yoe = 399)) := by
    split at hd1 <;> omega
  obtain ⟨hd365, hdleap⟩ := hd1'
  have hc4 : yoe / 4 = 25 * (yoe / 100) + (yoe % 100) / 4 := by omega
  have hdoe' : doe = 36524 * (yoe / 100) + 365 * (yoe % 100) + (yoe % 100) / 4 + doy := by
    omega
  have hlocal : 365 * (yoe % 100) + (yoe % 100) / 4 + doy ≤ 36524 := by omega
  have hA : q100 = yoe / 100 := by omega
  have hr100' : r100 = 1461 * ((yoe % 100) / 4) + 365 * (yoe % 100 % 4) + doy := by
    omega
  have hB : q4 = (yoe % 100) / 4 := by omega
  have hr4' : r4 = 365 * (yoe % 100 % 4) + doy := by omega
  have hC : q1 = yoe % 100 % 4 := by omega
  omega

theorem civilFromDays_spec (z era yoe doy : Int)
    (hz : z + 719468 = era * 146097 + (365 * yoe + yoe / 4 - yoe / 100 + doy))
    (hyoe0 : 0 ≤ yoe) (hyoe1 : yoe ≤ 399) (hdoy0 : 0 ≤ doy)
    (hdoy1 : doy ≤ 364 +
      (if (yoe + 1) % 4 = 0 ∧ ((yoe + 1) % 100 ≠ 0 ∨ (yoe + 1) % 400 = 0) then 1
        else 0)) :
    civilFromDays z =
      (era * 400 + yoe + (if (5 * doy + 2) / 153 < 10 then 0 else 1),
        (if (5 * doy + 2) / 153 < 10 then (5 * doy + 2) / 153 + 3
          else (5 * doy + 2) / 153 - 9),
        doy - (153 * ((5 * doy + 2) / 153) + 2) / 5 + 1) := by
  have hdoy365 : doy ≤ 365 := by
    split at hdoy1 <;> omega
  have hera : (z + 719468) / 146097 = era := by omega
  have hdoe : (z + 719468) % 146097 = 365 * yoe + yoe / 4 - yoe / 100 + doy := by
    omega
  obtain ⟨hy, hdy⟩ := yoe_extraction yoe doy
    (365 * yoe + yoe / 4 - yoe / 100 + doy)
    (min ((365 * yoe + yoe / 4 - yoe / 100 + doy) / 36524) 3)
    ((365 * yoe + yoe / 4 - yoe / 100 + doy) -
      36524 * min ((365 * yoe + yoe / 4 - yoe / 100 + doy) / 36524) 3)
    (((365 * yoe + yoe / 4 - yoe / 100 + doy) -
      36524 * min ((365 * yoe + yoe / 4 - yoe / 100 + doy) / 36524) 3) / 1461)
    (((365 * yoe + yoe / 4 - yoe / 100 + doy) -
        36524 * min ((365 * yoe + yoe / 4 - yoe / 100 + doy) / 36524) 3) -
      1461 * (((365 * yoe + yoe / 4 - yoe / 100 + doy) -
        36524 * min ((365 * yoe + yoe / 4 - yoe / 100 + doy) / 36524) 3) / 1461))
    (min ((((365 * yoe + yoe / 4 - yoe / 100 + doy) -
        36524 * min ((365 * yoe + yoe / 4 - yoe / 100 + doy) / 36524) 3) -
      1461 * (((365 * yoe + yoe / 4 - yoe / 100 + doy) -
        36524 * min ((365 * yoe + yoe / 4 - yoe / 100 + doy) / 36524) 3) / 1461)) / 365)
      3)
    hyoe0 hyoe1 hdoy0 hdoy1 rfl rfl rfl rfl rfl rfl
  simp only [civilFromDays]
  rw [hera, hdoe, hy, hdy]

/-- The civil/day-number roundtrip: `civilFromDays` inverts `daysFromCivil`
on valid civil dates (any year). -/
theorem civilFromDays_daysFromCivil (y m d : Int) (hm1 : 1 ≤ m) (hm2 : m ≤ 12)
    (hd1 : 1 ≤ d) (hd2 : d ≤ monthLength y m) :
    civilFromDays (daysFromCivil y m d) = (y, m, d) := by
  interval_cases m
  · -- January: mp = 10, offset 306, march-based year y - 1
    have hL : monthLength y 1 = 31 := by norm_num [monthLength]
    rw [hL] at hd2
    refine (civilFromDays_spec (daysFromCivil y 1 d) ((y - 1) / 400)
        ((y - 1) - (y - 1) / 400 * 400) (306 + d - 1) ?_ ?_ ?_ ?_ ?_).trans ?_
    · simp only [daysFromCivil]
      norm_num
      try omega
    · omega
    · omega
    · omega
    · split <;> omega
    · have hmp : (5 * (306 + d - 1) + 2) / 153 = 10 := by omega
      rw [hmp]
      norm_num [Prod.mk.injEq]
      all_goals omega
  · -- February: mp = 11, offset 337, march-based year y - 1
    have hL : monthLength y 2 = if isLeap y then 29 else 28 := by
      simp [monthLength]
    rw [hL] at hd2
    have hd29 : d ≤ 29 := by
      by_cases hleap : isLeap y
      · rw [if_pos hleap] at hd2; omega
      · rw [if_neg hleap] at hd2; omega
    refine (civilFromDays_spec (daysFromCivil y 2 d) ((y - 1) / 400)
        ((y - 1) - (y - 1) / 400 * 400) (337 + d - 1) ?_ ?_ ?_ ?_ ?_).trans ?_
    · simp only [daysFromCivil]
      norm_num
      try omega
    · omega
    · omega
    · omega
    · by_cases hleap : isLeap y
      · rw [if_pos hleap] at hd2
        unfold isLeap at hleap
        split <;> omega
      · rw [if_neg hleap] at hd2
        unfold isLeap at hleap
        split <;> omega
    · have hmp : (5 * (337 + d - 1) + 2) / 153 = 11 := by omega
      rw [hmp]
      norm_num [Prod.mk.injEq]
      all_goals omega
  · -- March: mp = 0, offset 0
    have hL : monthLength y 3 = 31 := by norm_num [monthLength]
    rw [hL] at hd2
    refine (civilFromDays_spec (daysFromCivil y 3 d) (y / 400)
        (y - y / 400 * 400) (0 + d - 1) ?_ ?_ ?_ ?_ ?_).trans ?_
    · simp only [daysFromCivil]
      norm_num
      try omega
    · omega
    · omega
    · omega
    · split <;> omega
    · have hmp : (5 * (0 + d - 1) + 2) / 153 = 0 := by omega
      rw [hmp]
      norm_num [Prod.mk.injEq]
      all_goals omega
  · -- April: mp = 1, offset 31
    have hL : monthLength y 4 = 30 := by norm_num [monthLength]
    rw [hL] at hd2
    refine (civilFromDays_spec (daysFromCivil y 4 d) (y / 400)
        (y - y / 400 * 400) (31 + d - 1) ?_ ?_ ?_ ?_ ?_).trans ?_
    · simp only [daysFromCivil]
      norm_num
      try omega
    · omega
    · omega
    · omega
    · split <;> omega
    · have hmp : (5 * (31 + d - 1) + 2) / 153 = 1 := by omega
      rw [hmp]
      norm_num [Prod.mk.injEq]
      all_goals omega
  · -- May: mp = 2, offset 61
    have hL : monthLength y 5 = 31 := by norm_num [monthLength]
    rw [hL] at hd2
    refine (civilFromDays_spec (daysFromCivil y 5 d) (y / 400)
        (y - y / 400 * 400) (61 + d - 1) ?_ ?_ ?_ ?_ ?_).trans ?_
    · simp only [daysFromCivil]
      norm_num
      try omega
    · omega
    · omega
    · omega
    · split <;> omega
    · have hmp : (5 * (61 + d - 1) + 2) / 153 = 2 := by omega
      rw [hmp]
      norm_num [Prod.mk.injEq]
      all_goals omega
  · -- June: mp = 3, offset 92
    have hL : monthLength y 6 = 30 := by norm_num [monthLength]
    rw [hL] at hd2
    refine (civilFromDays_spec (daysFromCivil y 6 d) (y / 400)
        (y - y / 400 * 400) (92 + d - 1) ?_ ?_ ?_ ?_ ?_).trans ?_
    · simp only [daysFromCivil]
      norm_num
      try omega
    · omega
    · omega
    · omega
    · split <;> omega
    · have hmp : (5 * (92 + d - 1) + 2) / 153 = 3 := by omega
      rw [hmp]
      norm_num [Prod.mk.injEq]
      all_goals omega
  · -- July: mp = 4, offset 122
    have hL : monthLength y 7 = 31 := by norm_num [monthLength]
    rw [hL] at hd2
    refine (civilFromDays_spec (daysFromCivil y 7 d) (y / 400)
        (y - y / 400 * 400) (122 + d - 1) ?_ ?_ ?_ ?_ ?_).trans ?_
    · simp only [daysFromCivil]
      norm_num
      try omega
    · omega
    · omega
    · omega
    · split <;> omega
    · have hmp : (5 * (122 + d - 1) + 2) / 153 = 4 := by omega
      rw [hmp]
      norm_num [Prod.mk.injEq]
      all_goals omega
  · -- August: mp = 5, offset 153
    have hL : monthLength y 8 = 31 := by norm_num [monthLength]
    rw [hL] at hd2
    refine (civilFromDays_spec (daysFromCivil y 8 d) (y / 400)
        (y - y / 400 * 400) (153 + d - 1) ?_ ?_ ?_ ?_ ?_).trans ?_
    · simp only [daysFromCivil]
      norm_num
      try omega
    · omega
    · omega
    · omega
    · split <;> omega
    · have hmp : (5 * (153 + d - 1) + 2) / 153 = 5 := by omega
      rw [hmp]
      norm_num [Prod.mk.injEq]
      all_goals omega
  · -- September: mp = 6, offset 184
    have hL : monthLength y 9 = 30 := by norm_num [monthLength]
    rw [hL] at hd2
    refine (civilFromDays_spec (daysFromCivil y 9 d) (y / 400)
        (y - y / 400 * 400) (184 + d - 1) ?_ ?_ ?_ ?_ ?_).trans ?_
    · simp only [daysFromCivil]
      norm_num
      try omega
    · omega
    · omega
    · omega
    · split <;> omega
    · have hmp : (5 * (184 + d - 1) + 2) / 153 = 6 := by omega
      rw [hmp]
      norm_num [Prod.mk.injEq]
      all_goals omega
  · -- October: mp = 7, offset 214
    have hL : monthLength y 10 = 31 := by norm_num [monthLength]
    rw [hL] at hd2
    refine (civilFromDays_spec (daysFromCivil y 10 d) (y / 400)
        (y - y / 400 * 400) (214 + d - 1) ?_ ?_ ?_ ?_ ?_).trans ?_
    · simp only [daysFromCivil]
      norm_num
      try omega
    · omega
    · omega
    · omega
    · split <;> omega
    · have hmp : (5 * (214 + d - 1) + 2) / 153 = 7 := by omega
      rw [hmp]
      norm_num [Prod.mk.injEq]
      all_goals omega
  · -- November: mp = 8, offset 245
    have hL : monthLength y 11 = 30 := by norm_num [monthLength]
    rw [hL] at hd2
    refine (civilFromDays_spec (daysFromCivil y 11 d) (y / 400)
        (y - y / 400 * 400) (245 + d - 1) ?_ ?_ ?_ ?_ ?_).trans ?_
    · simp only [daysFromCivil]
      norm_num
      try omega
    · omega
    · omega
    · omega
    · split <;> omega
    · have hmp : (5 * (245 + d - 1) + 2) / 153 = 8 := by omega
      rw [hmp]
      norm_num [Prod.mk.injEq]
      all_goals omega
  · -- December: mp = 9, offset 275
    have hL : monthLength y 12 = 31 := by norm_num [monthLength]
    rw [hL] at hd2
    refine (civilFromDays_spec (daysFromCivil y 12 d) (y / 400)
        (y - y / 400 * 400) (275 + d - 1) ?_ ?_ ?_ ?_ ?_).trans ?_
    · simp only [daysFromCivil]
      norm_num
      try omega
    · omega
    · omega
    · omega
    · split <;> omega
    · have hmp : (5 * (275 + d - 1) + 2) / 153 = 9 := by omega
      rw [hmp]
      norm_num [Prod.mk.injEq]
      all_goals omega

theorem monthLength_bounds (y m : Int) :
    28 ≤ monthLength y m ∧ monthLength y m ≤ 31 := by
  unfold monthLength
  split_ifs <;> omega

theorem daysFromCivil_add_d (y m d : Int) :
    daysFromCivil y m d = daysFromCivil y m 1 + (d - 1) := by
  simp only [daysFromCivil]
  ring

theorem next_prev (y m : Int) (hm1 : 1 ≤ m) (hm2 : m ≤ 12) :
    nextMonthY (prevMonthY y m) (prevMonthM m) = y ∧
      nextMonthM (prevMonthM m) = m ∧ 1 ≤ prevMonthM m ∧ prevMonthM m ≤ 12 := by
  unfold nextMonthY nextMonthM prevMonthY prevMonthM
  split_ifs <;> omega

theorem monthFirst_next (y m : Int) (hm1 : 1 ≤ m) (hm2 : m ≤ 12) :
    monthFirst y m + monthLength y m =
      monthFirst (nextMonthY y m) (nextMonthM m) := by
  unfold monthFirst
  interval_cases m <;>
    (simp only [daysFromCivil, monthLength, nextMonthY, nextMonthM]
     norm_num
     try (unfold isLeap; split_ifs <;> omega)
     try omega)

theorem monthFirst_prev (y m : Int) (hm1 : 1 ≤ m) (hm2 : m ≤ 12) :
    monthFirst (prevMonthY y m) (prevMonthM m) +
        monthLength (prevMonthY y m) (prevMonthM m) = monthFirst y m := by
  obtain ⟨h1, h2, h3, h4⟩ := next_prev y m hm1 hm2
  have h := monthFirst_next (prevMonthY y m) (prevMonthM m) h3 h4
  rw [h1, h2] at h
  exact h

theorem jsMakeDate_eq (y mIdx d : Int) (hy : ¬ (0 ≤ y ∧ y ≤ 99))
    (hm : 0 ≤ mIdx) (hm' : mIdx ≤ 11) :
    jsMakeDate y mIdx d = daysFromCivil y (mIdx + 1) 1 + d - 1 := by
  unfold jsMakeDate jsFixYear
  rw [if_neg hy, show (12 * y + mIdx) / 12 = y from by omega,
    show (12 * y + mIdx) % 12 + 1 = mIdx + 1 from by omega]

theorem jsMakeDate_first (y m : Int) (hy : ¬ (0 ≤ y ∧ y ≤ 99))
    (hm1 : 1 ≤ m) (hm2 : m ≤ 12) :
    jsMakeDate y (m - 1) 1 = monthFirst y m := by
  rw [jsMakeDate_eq y (m - 1) 1 hy (by omega) (by omega)]
  unfold monthFirst
  rw [show m - 1 + 1 = m from by ring]
  ring

/-- Every day number within six days before the first of a month and 41 days
after it lies in the previous, the current or the next civil month, and
`civilFromDays` returns the corresponding triple. -/
theorem civil_in_window (y m z : Int) (hm1 : 1 ≤ m) (hm2 : m ≤ 12)
    (hz1 : monthFirst y m - 6 ≤ z) (hz2 : z ≤ monthFirst y m + 41) :
    (monthFirst y m ≤ z ∧ z ≤ monthFirst y m + monthLength y m - 1 ∧
      civilFromDays z = (y, m, z - monthFirst y m + 1)) ∨
    (z < monthFirst y m ∧
      civilFromDays z = (prevMonthY y m, prevMonthM m,
        z - monthFirst (prevMonthY y m) (prevMonthM m) + 1)) ∨
    (monthFirst y m + monthLength y m ≤ z ∧
      civilFromDays z = (nextMonthY y m, nextMonthM m,
        z - monthFirst (nextMonthY y m) (nextMonthM m) + 1)) := by
  obtain ⟨hp1, hp2, hp3, hp4⟩ := next_prev y m hm1 hm2
  have hLcur := monthLength_bounds y m
  have hLprev := monthLength_bounds (prevMonthY y m) (prevMonthM m)
  have hLnext := monthLength_bounds (nextMonthY y m) (nextMonthM m)
  have hprev := monthFirst_prev y m hm1 hm2
  have hnext := monthFirst_next y m hm1 hm2
  have hnm1 : 1 ≤ nextMonthM m := by unfold nextMonthM; split_ifs <;> omega
  have hnm2 : nextMonthM m ≤ 12 := by unfold nextMonthM; split_ifs <;> omega
  rcases lt_or_le z (monthFirst y m) with hlt | hge
  · refine Or.inr (Or.inl ⟨hlt, ?_⟩)
    have hz' : daysFromCivil (prevMonthY y m) (prevMonthM m)
        (z - monthFirst (prevMonthY y m) (prevMonthM m) + 1) = z := by
      rw [daysFromCivil_add_d]
      unfold monthFirst
      ring
    have hc := civilFromDays_daysFromCivil (prevMonthY y m) (prevMonthM m)
      (z - monthFirst (prevMonthY y m) (prevMonthM m) + 1) hp3 hp4
      (by omega) (by omega)
    rw [hz'] at hc
    exact hc
  · rcases lt_or_le z (monthFirst y m + monthLength y m) with hmid | hnxt
    · refine Or.inl ⟨hge, by omega, ?_⟩
      have hz' : daysFromCivil y m (z - monthFirst y m + 1) = z := by
        rw [daysFromCivil_add_d]
        unfold monthFirst
        ring
      have hc := civilFromDays_daysFromCivil y m (z - monthFirst y m + 1) hm1 hm2
        (by omega) (by omega)
      rw [hz'] at hc
      exact hc
    · refine Or.inr (Or.inr ⟨hnxt, ?_⟩)
      have hz' : daysFromCivil (nextMonthY y m) (nextMonthM m)
          (z - monthFirst (nextMonthY y m) (nextMonthM m) + 1) = z := by
        rw [daysFromCivil_add_d]
        unfold monthFirst
        ring
      have hc := civilFromDays_daysFromCivil (nextMonthY y m) (nextMonthM m)
        (z - monthFirst (nextMonthY y m) (nextMonthM m) + 1) hnm1 hnm2
        (by omega) (by omega)
      rw [hz'] at hc
      exact hc

theorem getMonth_in_window (y m z : Int) (hm1 : 1 ≤ m) (hm2 : m ≤ 12)
    (hz1 : monthFirst y m - 6 ≤ z) (hz2 : z ≤ monthFirst y m + 41) :
    (jsGetMonth z = m - 1 ↔
      (monthFirst y m ≤ z ∧ z ≤ monthFirst y m + monthLength y m - 1)) ∧
    (jsGetMonth z = m - 1 → jsGetFullYear z = y) := by
  rcases civil_in_window y m z hm1 hm2 hz1 hz2 with ⟨h1, h2, hc⟩ | ⟨h1, hc⟩ | ⟨h1, hc⟩
  · unfold jsGetMonth jsGetFullYear
    rw [hc]
    exact ⟨iff_of_true rfl ⟨h1, h2⟩, fun _ => rfl⟩
  · have hne : prevMonthM m ≠ m := by unfold prevMonthM; split_ifs <;> omega
    unfold jsGetMonth jsGetFullYear
    rw [hc]
    constructor
    · constructor
      · intro hEq
        exact absurd (show prevMonthM m = m from by
          have : (prevMonthY y m, prevMonthM m,
              z - monthFirst (prevMonthY y m) (prevMonthM m) + 1).2.1 = prevMonthM m := rfl
          omega) hne
      · intro hIn
        exact absurd hIn.1 (by omega)
    · intro hEq
      exact absurd (show prevMonthM m = m from by
        have : (prevMonthY y m, prevMonthM m,
            z - monthFirst (prevMonthY y m) (prevMonthM m) + 1).2.1 = prevMonthM m := rfl
        omega) hne
  · have hne : nextMonthM m ≠ m := by unfold nextMonthM; split_ifs <;> omega
    unfold jsGetMonth jsGetFullYear
    rw [hc]
    constructor
    · constructor
      · intro hEq
        exact absurd (show nextMonthM m = m from by
          have : (nextMonthY y m, nextMonthM m,
              z - monthFirst (nextMonthY y m) (nextMonthM m) + 1).2.1 = nextMonthM m := rfl
          omega) hne
      · intro hIn
        exact absurd hIn.2 (by omega)
    · intro hEq
      exact absurd (show nextMonthM m = m from by
        have : (nextMonthY y m, nextMonthM m,
            z - monthFirst (nextMonthY y m) (nextMonthM m) + 1).2.1 = nextMonthM m := rfl
        omega) hne

theorem window_setDate (y m z k : Int) (hm1 : 1 ≤ m) (hm2 : m ≤ 12)
    (hz1 : monthFirst y m - 6 ≤ z) (hz2 : z ≤ monthFirst y m + 41) :
    jsSetDate z (jsGetDate z + k) = z + k := by
  rcases civil_in_window y m z hm1 hm2 hz1 hz2 with ⟨-, -, hc⟩ | ⟨-, hc⟩ | ⟨-, hc⟩ <;>
    (unfold jsSetDate jsGetDate monthStartOf
     rw [hc]
     simp only [monthFirst]
     omega)

/-! ### The trim loop -/

theorem trimTrailing_append (p : List Int → Bool) (l : List (List Int)) :
    ∃ suffix, l = trimTrailing p l ++ suffix ∧ ∀ r ∈ suffix, p r = false := by
  refine ⟨(l.reverse.takeWhile (fun r => !p r)).reverse, ?_, ?_⟩
  · unfold trimTrailing
    rw [← List.reverse_append, List.takeWhile_append_dropWhile, List.reverse_reverse]
  · intro r hr
    have hr' := List.mem_reverse.mp hr
    have hq := List.mem_takeWhile_imp hr'
    simpa using hq

theorem trimTrailing_ne_nil (p : List Int → Bool) (l : List (List Int))
    (h : ∃ r ∈ l, p r = true) : trimTrailing p l ≠ [] := by
  intro hnil
  unfold trimTrailing at hnil
  have hdrop : l.reverse.dropWhile (fun r => !p r) = [] := by
    have hc := congrArg List.reverse hnil
    rwa [List.reverse_reverse, List.reverse_nil] at hc
  obtain ⟨r, hrl, hpr⟩ := h
  have hall := List.dropWhile_eq_nil_iff.mp hdrop r (List.mem_reverse.mpr hrl)
  rw [hpr] at hall
  exact absurd hall (by decide)

theorem head_dropWhile_false (q : List Int → Bool) :
    ∀ (xs : List (List Int)) a rest, xs.dropWhile q = a :: rest → q a = false := by
  intro xs
  induction xs with
  | nil => intro a rest h; simp at h
  | cons x xs' ih =>
    intro a rest h
    by_cases hx : q x = true
    · rw [List.dropWhile_cons_of_pos hx] at h
      exact ih a rest h
    · rw [List.dropWhile_cons_of_neg hx] at h
      injection h with h1 h2
      subst h1
      simpa using hx

theorem trimTrailing_getLast (p : List Int → Bool) (l : List (List Int))
    (h : trimTrailing p l ≠ []) :
    ∃ lastRow, (trimTrailing p l).getLast? = some lastRow ∧ p lastRow = true := by
  have hDne : l.reverse.dropWhile (fun r => !p r) ≠ [] := by
    intro hnil
    apply h
    unfold trimTrailing
    rw [hnil]
    rfl
  obtain ⟨a, rest, hcons⟩ := List.exists_cons_of_ne_nil hDne
  have hhead := head_dropWhile_false (fun r => !p r) l.reverse a rest hcons
  refine ⟨a, ?_, by simpa using hhead⟩
  unfold trimTrailing
  rw [hcons, List.getLast?_reverse]
  rfl

/-- The matrix builder equals trimming of the abstract grid (for years
outside the two-digit range). -/
theorem buildCalendarMatrix_eq (y m : Int) (hy : ¬ (0 ≤ y ∧ y ≤ 99))
    (hm1 : 1 ≤ m) (hm2 : m ≤ 12) :
    buildCalendarMatrix y m = trimTrailing (rowHasMonthDay m) (fullGrid y m) := by
  have hL1 : 1 ≤ monthLength y m := by
    have := monthLength_bounds y m
    omega
  have hc1 := civilFromDays_daysFromCivil y m 1 hm1 hm2 le_rfl hL1
  simp only [buildCalendarMatrix]
  rw [jsMakeDate_first y m hy hm1 hm2]
  have hstart : jsSetDate (monthFirst y m) (1 - jsGetDay (monthFirst y m)) =
      gridStart y m := by
    unfold jsSetDate monthStartOf gridStart monthFirst
    rw [hc1]
    simp
    ring
  rw [hstart]
  unfold fullGrid
  apply congrArg
  apply List.map_congr_left
  intro week hweek
  apply List.map_congr_left
  intro day hday
  have hz1 : monthFirst y m - 6 ≤ gridStart y m := by
    unfold gridStart jsGetDay
    omega
  have hz2 : gridStart y m ≤ monthFirst y m + 41 := by
    unfold gridStart jsGetDay
    omega
  exact window_setDate y m (gridStart y m) _ hm1 hm2 hz1 hz2

theorem fullGrid_length (y m : Int) : (fullGrid y m).length = 6 := by
  unfold fullGrid
  simp

theorem fullGrid_get (y m : Int) (w : Nat) (hw : w < 6) :
    (fullGrid y m)[w]? =
      some ((List.range 7).map (fun (j : Nat) => gridStart y m + ((w * 7 + j : Nat) : Int))) := by
  have hlen : w < (fullGrid y m).length := by
    rw [fullGrid_length]
    omega
  rw [List.getElem?_eq_getElem hlen]
  simp only [fullGrid, List.getElem_map, List.getElem_range]

theorem mem_fullGrid_iff (y m : Int) (r : List Int) :
    r ∈ fullGrid y m ↔ ∃ w : Nat, w < 6 ∧
      r = (List.range 7).map (fun (j : Nat) => gridStart y m + ((w * 7 + j : Nat) : Int)) := by
  unfold fullGrid
  rw [List.mem_map]
  constructor
  · rintro ⟨w, hw, rfl⟩
    exact ⟨w, List.mem_range.mp hw, rfl⟩
  · rintro ⟨w, hw, hr⟩
    exact ⟨w, List.mem_range.mpr hw, hr.symm⟩

theorem getElem_eq_of_append {α : Type} (l l1 l2 : List α) (h : l = l1 ++ l2)
    (w : Nat) (hw : w < l1.length) : l[w]? = l1[w]? := by
  subst h
  exact List.getElem?_append_left hw

/-- Grid row `w` contains a day of month `(y, m)` exactly when its first cell
is not past the end of the month. -/
theorem grid_row_hasMonthDay_iff (y m : Int) (w : Nat) (hm1 : 1 ≤ m) (hm2 : m ≤ 12)
    (hw : w < 6) :
    (rowHasMonthDay m ((List.range 7).map
        (fun (j : Nat) => gridStart y m + ((w * 7 + j : Nat) : Int))) = true) ↔
      7 * (w : Int) ≤ jsGetDay (monthFirst y m) + monthLength y m - 1 := by
  have hoff : 0 ≤ jsGetDay (monthFirst y m) ∧ jsGetDay (monthFirst y m) < 7 := by
    unfold jsGetDay
    omega
  have hL := monthLength_bounds y m
  unfold rowHasMonthDay
  rw [List.any_eq_true]
  constructor
  · rintro ⟨z, hz, hpz⟩
    rw [List.mem_map] at hz
    obtain ⟨j, hj, rfl⟩ := hz
    rw [List.mem_range] at hj
    have hpz' : jsGetMonth (gridStart y m + ((w * 7 + j : Nat) : Int)) = m - 1 := by
      simpa using hpz
    have hz1 : monthFirst y m - 6 ≤ gridStart y m + ((w * 7 + j : Nat) : Int) := by
      unfold gridStart
      omega
    have hz2 : gridStart y m + ((w * 7 + j : Nat) : Int) ≤ monthFirst y m + 41 := by
      unfold gridStart
      omega
    have hin := ((getMonth_in_window y m _ hm1 hm2 hz1 hz2).1).mp hpz'
    unfold gridStart at hin
    omega
  · intro hle
    by_cases hw0 : w = 0
    · subst hw0
      refine ⟨_, List.mem_map.mpr ⟨(jsGetDay (monthFirst y m)).toNat,
        List.mem_range.mpr (by omega), rfl⟩, ?_⟩
      refine beq_iff_eq.mpr (((getMonth_in_window y m _ hm1 hm2 ?_ ?_).1).mpr ?_)
      · unfold gridStart
        omega
      · unfold gridStart
        omega
      · unfold gridStart
        constructor
        · omega
        · omega
    · refine ⟨_, List.mem_map.mpr ⟨0, List.mem_range.mpr (by omega), rfl⟩, ?_⟩
      refine beq_iff_eq.mpr (((getMonth_in_window y m _ hm1 hm2 ?_ ?_).1).mpr ?_)
      · unfold gridStart
        omega
      · unfold gridStart
        omega
      · unfold gridStart
        constructor
        · omega
        · omega

set_option maxHeartbeats 1600000 in
/-- C3: for months of a year outside the two-digit range, the built matrix has
between one and six rows; row `w` is the seven consecutive day numbers
starting at `gridStart y m + 7 * w`; its first cell `gridStart y m` is the
Sunday on or before the first of the month; the rows arise from the full
six-by-seven grid by dropping only trailing rows that contain no day of the
target month; and every retained row contains a day of the target month. -/
theorem C3_calendar_matrix (y m : Int) (hy : ¬ (0 ≤ y ∧ y ≤ 99))
    (hm1 : 1 ≤ m) (hm2 : m ≤ 12) :
    0 < (buildCalendarMatrix y m).length ∧
    (buildCalendarMatrix y m).length ≤ 6 ∧
    (∀ w : Nat, w < (buildCalendarMatrix y m).length →
      (buildCalendarMatrix y m)[w]? =
        some ((List.range 7).map
          (fun (j : Nat) => gridStart y m + ((w * 7 + j : Nat) : Int)))) ∧
    (jsGetDay (gridStart y m) = 0 ∧ monthFirst y m - 6 ≤ gridStart y m ∧
      gridStart y m ≤ monthFirst y m) ∧
    (∃ dropped, fullGrid y m = buildCalendarMatrix y m ++ dropped ∧
      ∀ r ∈ dropped, rowHasMonthDay m r = false) ∧
    (∀ r ∈ buildCalendarMatrix y m, rowHasMonthDay m r = true) := by
  have hbe := buildCalendarMatrix_eq y m hy hm1 hm2
  simp only [hbe]
  have hoff : 0 ≤ jsGetDay (monthFirst y m) ∧ jsGetDay (monthFirst y m) < 7 := by
    unfold jsGetDay
    omega
  have hL := monthLength_bounds y m
  obtain ⟨suffix, hsplit, hsuf⟩ := trimTrailing_append (rowHasMonthDay m) (fullGrid y m)
  have hGlen : (fullGrid y m).length = 6 := fullGrid_length y m
  have hlensum :
      (trimTrailing (rowHasMonthDay m) (fullGrid y m)).length + suffix.length = 6 := by
    have hc := congrArg List.length hsplit
    rw [List.length_append] at hc
    omega
  have hrow0 : ∃ r ∈ fullGrid y m, rowHasMonthDay m r = true := by
    refine ⟨_, (mem_fullGrid_iff y m _).mpr ⟨0, by omega, rfl⟩, ?_⟩
    exact (grid_row_hasMonthDay_iff y m 0 hm1 hm2 (by omega)).mpr (by push_cast; omega)
  have hne : trimTrailing (rowHasMonthDay m) (fullGrid y m) ≠ [] :=
    trimTrailing_ne_nil _ _ hrow0
  have hpos : 0 < (trimTrailing (rowHasMonthDay m) (fullGrid y m)).length :=
    List.length_pos.mpr hne
  have hrows : ∀ w : Nat, w < (trimTrailing (rowHasMonthDay m) (fullGrid y m)).length →
      (trimTrailing (rowHasMonthDay m) (fullGrid y m))[w]? =
        some ((List.range 7).map
          (fun (j : Nat) => gridStart y m + ((w * 7 + j : Nat) : Int))) := by
    intro w hw
    rw [← getElem_eq_of_append (fullGrid y m) _ suffix hsplit w hw]
    exact fullGrid_get y m w (by omega)
  obtain ⟨lastRow, hlastq, hplast⟩ :=
    trimTrailing_getLast (rowHasMonthDay m) (fullGrid y m) hne
  rw [List.getLast?_eq_getElem? _] at hlastq
  rw [hrows ((trimTrailing (rowHasMonthDay m) (fullGrid y m)).length - 1) (by omega)]
    at hlastq
  have hlr := Option.some.inj hlastq
  have hplast' : rowHasMonthDay m ((List.range 7).map (fun (j : Nat) =>
      gridStart y m +
        ((((trimTrailing (rowHasMonthDay m) (fullGrid y m)).length - 1) * 7 + j : Nat)
          : Int))) = true := by
    rw [hlr]
    exact hplast
  have hbound := (grid_row_hasMonthDay_iff y m _ hm1 hm2 (by omega)).mp hplast'
  have hall : ∀ r ∈ trimTrailing (rowHasMonthDay m) (fullGrid y m),
      rowHasMonthDay m r = true := by
    intro r hr
    obtain ⟨⟨w, hw⟩, hget⟩ := List.mem_iff_get.mp hr
    have h1 : (trimTrailing (rowHasMonthDay m) (fullGrid y m))[w]? = some r := by
      rw [List.getElem?_eq_getElem hw, ← hget, List.get_eq_getElem]
    rw [hrows w hw] at h1
    rw [← Option.some.inj h1]
    refine (grid_row_hasMonthDay_iff y m w hm1 hm2 (by omega)).mpr ?_
    omega
  refine ⟨hpos, by omega, hrows, ⟨?_, ?_, ?_⟩, ⟨suffix, hsplit, hsuf⟩, hall⟩
  · unfold gridStart jsGetDay
    omega
  · unfold gridStart
    omega
  · unfold gridStart
    omega

/-- C3 counterexample: for year 26 and month 6 the first cell of the built
matrix is not on or before the first of month 0026-06 (it is the Sunday before
1926-06-01, because `new Date(26, 5, 1)` reads year 26 as 1926), so the claim
fails for two-digit years. -/
theorem C3_counterexample :
    ¬ (((buildCalendarMatrix 26 6).headD []).headD 0 ≤ monthFirst 26 6) := by
  decide

/-- Witness for C3 at year 2024, month 5: the hypotheses hold and the matrix
has between one and six rows. -/
theorem C3_calendar_matrix_witness :
    (¬ ((0:Int) ≤ 2024 ∧ (2024:Int) ≤ 99)) ∧ (1:Int) ≤ 5 ∧ (5:Int) ≤ 12 ∧
      0 < (buildCalendarMatrix 2024 5).length ∧
      (buildCalendarMatrix 2024 5).length ≤ 6 := by
  refine ⟨by decide, by decide, by decide, ?_, ?_⟩
  · exact (C3_calendar_matrix 2024 5 (by decide) (by decide) (by decide)).1
  · exact (C3_calendar_matrix 2024 5 (by decide) (by decide) (by decide)).2.1

end Daily
